import Mathlib

/-!
Shallow embedding of the octargs argument-registration and parsing core.

Sources embedded:
- src/include/octargs/parser.hpp : `oct::args::basic_parser` (registration
  checks, named-argument phase, positional phase) — namespace `OldParser`.
- src/include/octargs/internal/argument_repository.hpp :
  `oct::args::internal::basic_argument_repository` — namespace `Repo`.
- src/include/octargs/internal/positional_argument_impl.hpp : arity setters —
  modelled as repository-level updates in namespace `Repo`.

The C++ stores arguments behind shared_ptr; here every created argument lives
in an arena list and is referred to by its index, which plays the role of the
pointer identity.  Exceptions become `Except` results; a thrown configuration
exception carries the repository state at the throw point so that atomicity
is expressible.
-/

namespace Octargs

/-- Configuration-time errors.  Each constructor corresponds to a family of
`configuration_exception` / `invalid_argument_name_ex` /
`subparser_positional_conflict` throw sites, keyed by their messages. -/
inductive ConfigError
  | InvalidName
  | DuplicateName
  | StructuralConflict
  | OptionalPositionalConflict
  | MultivaluePositionalConflict
deriving DecidableEq, Repr

/-- Parse-time errors, one constructor per `parse_exception` message family. -/
inductive ParseError
  | UnexpectedValue
  | MissingValue
  | TooManyOccurrences
  | ExclusiveConflict
  | UnexpectedArgument
  | RequiredArgumentMissing
  | UnknownSubcommand
deriving DecidableEq, Repr

/-- Equality test on `Except` values (needed to evaluate concrete parses). -/
instance {ε α} [DecidableEq ε] [DecidableEq α] : DecidableEq (Except ε α) := fun a b =>
  match a, b with
  | .error e1, .error e2 => decidable_of_iff (e1 = e2) (by simp)
  | .ok v1, .ok v2 => decidable_of_iff (v1 = v2) (by simp)
  | .error _, .ok _ => isFalse (by simp)
  | .ok _, .error _ => isFalse (by simp)

/-- Modelled from the spec: `internal::is_space` (char_utils.hpp is not in
src/); true on whitespace characters. -/
def is_space (c : Char) : Bool := c.isWhitespace

/-- Split a character sequence at the first occurrence of `sep`
(`std::basic_string::find(sep)` plus the two `substr` calls): returns the
part before the first occurrence and the part after it, or `none` when
`sep` does not occur. -/
def splitOnceStr (sep : List Char) : List Char → Option (List Char × List Char)
  | [] => if sep.isEmpty then some ([], []) else none
  | c :: cs =>
    if sep.isPrefixOf (c :: cs) then some ([], (c :: cs).drop sep.length)
    else
      match splitOnceStr sep cs with
      | none => none
      | some (a, b) => some (c :: a, b)

/-- Does `s` contain `lit` as a substring?  Mirrors
`std::basic_string::find(lit) != npos`. -/
def contains_lit (s lit : String) : Bool := (splitOnceStr lit.data s.data).isSome

namespace OldParser

/-- `argument_kind` of the old parser (parser.hpp). -/
inductive ArgKind
  | VALUED
  | SWITCH
  | POSITIONAL
deriving DecidableEq, Repr

/-- One registered argument.  `max_count = none` models an unlimited maximum
occurrence count. -/
structure Argument where
  kind : ArgKind
  names : List String
  required : Bool
  max_count : Option Nat
deriving DecidableEq, Repr

instance : Inhabited Argument := ⟨⟨ArgKind.SWITCH, [], false, some 1⟩⟩

/-- Parser state: TRAITS literals plus the data of `basic_parser_data`.
`arguments` is the arena of all created argument objects; the name table and
the positional sequence hold arena indices (shared_ptr identities). -/
structure ParserData where
  equal_literal : Char
  switch_enabled_literal : String
  arguments : List Argument
  names_repository : List (String × Nat)
  positional_arguments : List Nat
deriving DecidableEq, Repr

/-- A fresh parser (`basic_parser()`), given the two TRAITS literals. -/
def mkParserData (eq : Char) (sw : String) : ParserData :=
  ⟨eq, sw, [], [], []⟩

/-- `m_names_repository.find(name)`: index of the argument registered under
`name`, if any. -/
def find_name (p : ParserData) (s : String) : Option Nat :=
  (p.names_repository.find? (fun e => e.1 == s)).map (fun e => e.2)

/-- Dereference an arena index (shared_ptr dereference). -/
def get_arg (p : ParserData) (i : Nat) : Argument :=
  p.arguments.getD i default

/-- `ensure_name_characters_valid` (parser.hpp:351): rejects the empty name,
whitespace characters and the equal literal.  All throw sites raise
`configuration_exception`, mapped to `InvalidName` per the spec taxonomy. -/
def ensure_name_characters_valid (p : ParserData) (name : String) :
    Except ConfigError Unit :=
  if name.data.isEmpty then .error .InvalidName
  else if name.data.any (fun c => is_space c || c == p.equal_literal) then
    .error .InvalidName
  else .ok ()

/-- `ensure_names_characters_valid` (parser.hpp:343): every name checked. -/
def ensure_names_characters_valid (p : ParserData) :
    List String → Except ConfigError Unit
  | [] => .ok ()
  | n :: rest =>
    match ensure_name_characters_valid p n with
    | .error e => .error e
    | .ok () => ensure_names_characters_valid p rest

/-- Does some name occur again later in the list?  This is the condition of
the double loop in `ensure_no_duplicated_names`. -/
def has_intra_duplicates : List String → Bool
  | [] => false
  | n :: rest => rest.contains n || has_intra_duplicates rest

/-- `ensure_no_duplicated_names` (parser.hpp:319). -/
def ensure_no_duplicated_names (names : List String) : Except ConfigError Unit :=
  if has_intra_duplicates names then .error .DuplicateName else .ok ()

/-- `ensure_names_not_registered` (parser.hpp:307). -/
def ensure_names_not_registered (p : ParserData) (names : List String) :
    Except ConfigError Unit :=
  if names.any (fun n => (find_name p n).isSome) then .error .DuplicateName
  else .ok ()

/-- `check_names` (parser.hpp:292): size check, then character validity, then
intra-call duplicates, then already-registered names, in this order. -/
def check_names (p : ParserData) (names : List String) : Except ConfigError Unit :=
  if names.length < 1 then .error .InvalidName
  else
    match ensure_names_characters_valid p names with
    | .error e => .error e
    | .ok () =>
      match ensure_no_duplicated_names names with
      | .error e => .error e
      | .ok () => ensure_names_not_registered p names

/-- `add_to_names_repository` (parser.hpp:335): each alias is mapped to the
argument.  `std::map::emplace` keeps an existing entry; appending and letting
`find?` return the first match models the same behaviour. -/
def add_to_names_repository (p : ParserData) (idx : Nat) (names : List String) :
    ParserData :=
  { p with names_repository := p.names_repository ++ names.map (fun n => (n, idx)) }

/-- Create the argument object and register it (shared tail of the add
functions).  Returns the updated state and the new argument's identity. -/
def register_argument (p : ParserData) (arg : Argument) : ParserData × Nat :=
  let idx := p.arguments.length
  let p1 := { p with arguments := p.arguments ++ [arg] }
  (add_to_names_repository p1 idx arg.names, idx)

/-- `add_switch` (parser.hpp:53).  A thrown error carries the state at the
throw point. -/
def add_switch (p : ParserData) (names : List String) :
    Except (ConfigError × ParserData) (ParserData × Nat) :=
  match check_names p names with
  | .error e => .error (e, p)
  | .ok () =>
    .ok (register_argument p ⟨ArgKind.SWITCH, names, false, some 1⟩)

/-- `add_valued` (parser.hpp:64). -/
def add_valued (p : ParserData) (names : List String) :
    Except (ConfigError × ParserData) (ParserData × Nat) :=
  match check_names p names with
  | .error e => .error (e, p)
  | .ok () =>
    .ok (register_argument p ⟨ArgKind.VALUED, names, false, some 1⟩)

/-- Is the maximum count greater than one (`get_max_count() > 1`, with `none`
modelling the unlimited count)? -/
def max_count_gt_one (a : Argument) : Bool :=
  match a.max_count with
  | none => true
  | some m => decide (1 < m)

/-- `add_positional` (parser.hpp:75): name checks, then the guard on the most
recently registered positional argument (it must be required and not
multivalue), then registration.  A positional created with `multivalue` has
an unlimited maximum count, otherwise 1. -/
def add_positional (p : ParserData) (name : String) (required multivalue : Bool) :
    Except (ConfigError × ParserData) (ParserData × Nat) :=
  match check_names p [name] with
  | .error e => .error (e, p)
  | .ok () =>
    match p.positional_arguments.getLast? with
    | some lastIdx =>
      if (get_arg p lastIdx).required = false then
        .error (.OptionalPositionalConflict, p)
      else if max_count_gt_one (get_arg p lastIdx) then
        .error (.MultivaluePositionalConflict, p)
      else
        let (p1, idx) := register_argument p
          ⟨ArgKind.POSITIONAL, [name], required, if multivalue then none else some 1⟩
        .ok ({ p1 with positional_arguments := p1.positional_arguments ++ [idx] }, idx)
    | none =>
      let (p1, idx) := register_argument p
        ⟨ArgKind.POSITIONAL, [name], required, if multivalue then none else some 1⟩
      .ok ({ p1 with positional_arguments := p1.positional_arguments ++ [idx] }, idx)

/-- Collected results: a log of (argument identity, value) pairs in input
order (`basic_results_data::append_value`). -/
abbrev Results := List (Nat × String)

/-- `results_data::value_count(argument)`. -/
def value_count (res : Results) (idx : Nat) : Nat :=
  (res.filter (fun e => e.1 == idx)).length

/-- Ordered values collected for one argument. -/
def argument_values (res : Results) (idx : Nat) : List String :=
  (res.filter (fun e => e.1 == idx)).map (fun e => e.2)

/-- Has the argument reached its maximum count (`count >= get_max_count()`)? -/
def max_count_reached (a : Argument) (count : Nat) : Bool :=
  match a.max_count with
  | none => false
  | some m => decide (count ≥ m)

/-- `parse_argument_value` (parser.hpp:135): the arity check runs before the
value is appended. -/
def parse_argument_value (p : ParserData) (res : Results) (idx : Nat)
    (value_str : String) : Except ParseError Results :=
  let count := value_count res idx
  if max_count_reached (get_arg p idx) count then .error .TooManyOccurrences
  else .ok (res ++ [(idx, value_str)])

/-- Split a token at the first occurrence of the equal literal
(`input_value.find(...)` + the two `substr` calls). -/
def split_at_equal (eq : Char) (s : String) : Option (String × String) :=
  match splitOnceStr [eq] s.data with
  | none => none
  | some (a, b) => some (String.mk a, String.mk b)

/-- `parse_named_argument` (parser.hpp:155).  Result `ok none` is the
`return false` path: the token is left for the positional phase.  Result
`ok (some (res, rest))` returns the updated results and the input remaining
after the consumed token(s). -/
def parse_named_argument (p : ParserData) (res : Results) (input : List String) :
    Except ParseError (Option (Results × List String)) :=
  match input with
  | [] => .ok none
  | input_value :: rest =>
    match split_at_equal p.equal_literal input_value with
    | none =>
      match find_name p input_value with
      | none => .ok none
      | some idx =>
        match (get_arg p idx).kind with
        | .VALUED =>
          match rest with
          | [] => .error .MissingValue
          | value_str :: rest2 =>
            match parse_argument_value p res idx value_str with
            | .error e => .error e
            | .ok res2 => .ok (some (res2, rest2))
        | .SWITCH =>
          match parse_argument_value p res idx p.switch_enabled_literal with
          | .error e => .error e
          | .ok res2 => .ok (some (res2, rest))
        | _ => .ok none
    | some (name_str, value_str) =>
      match find_name p name_str with
      | none => .ok none
      | some idx =>
        match (get_arg p idx).kind with
        | .VALUED =>
          match parse_argument_value p res idx value_str with
          | .error e => .error e
          | .ok res2 => .ok (some (res2, rest))
        | .SWITCH => .error .UnexpectedValue
        | _ => .ok none

/-- The named-argument loop (`parse_named_arguments`, parser.hpp:239), with
explicit fuel.  Every successful iteration consumes at least one token, so
fuel equal to the input length (supplied by the wrapper below) never runs
out. -/
def parse_named_arguments_go (p : ParserData) :
    Nat → Results → List String → Except ParseError (Results × List String)
  | 0, res, input => .ok (res, input)
  | fuel + 1, res, input =>
    match input with
    | [] => .ok (res, [])
    | tok :: rest =>
      match parse_named_argument p res (tok :: rest) with
      | .error e => .error e
      | .ok none => .ok (res, tok :: rest)
      | .ok (some (res2, rest2)) => parse_named_arguments_go p fuel res2 rest2

/-- `parse_named_arguments` (parser.hpp:239). -/
def parse_named_arguments (p : ParserData) (res : Results) (input : List String) :
    Except ParseError (Results × List String) :=
  parse_named_arguments_go p input.length res input

/-- The consuming loop of `parse_positional_arguments` (parser.hpp:257-274):
each remaining token is recorded into the current positional slot; the slot
cursor advances only when the slot's maximum count is exactly 1. -/
def parse_positional_loop (p : ParserData) (res : Results) :
    List Nat → List String → Except ParseError (Results × List Nat)
  | slots, [] => .ok (res, slots)
  | [], _ :: _ => .error .UnexpectedArgument
  | idx :: slots_rest, value_str :: rest =>
    match parse_argument_value p res idx value_str with
    | .error e => .error e
    | .ok res2 =>
      if (get_arg p idx).max_count = some 1 then
        parse_positional_loop p res2 slots_rest rest
      else
        parse_positional_loop p res2 (idx :: slots_rest) rest

/-- The trailing check of `parse_positional_arguments` (parser.hpp:276-289):
a remaining required slot with zero collected values is an error. -/
def check_required_positionals (p : ParserData) (res : Results) :
    List Nat → Except ParseError Unit
  | [] => .ok ()
  | idx :: rest =>
    if (get_arg p idx).required = false then check_required_positionals p res rest
    else if value_count res idx == 0 then .error .RequiredArgumentMissing
    else check_required_positionals p res rest

/-- `parse` (parser.hpp:113): named phase, then positional phase, then the
required-positional check. -/
def parse (p : ParserData) (input : List String) : Except ParseError Results :=
  match parse_named_arguments p [] input with
  | .error e => .error e
  | .ok (res1, rest) =>
    match parse_positional_loop p res1 p.positional_arguments rest with
    | .error e => .error e
    | .ok (res2, slots) =>
      match check_required_positionals p res2 slots with
      | .error e => .error e
      | .ok () => .ok res2

end OldParser

namespace Repo

/-- Argument kinds of the repository-based front end
(argument_repository.hpp). -/
inductive ArgKind
  | EXCLUSIVE
  | SWITCH
  | VALUED
  | POSITIONAL
  | SUBPARSER
deriving DecidableEq, Repr

/-- One argument created by the repository.  The arity defaults and the
positional flag live in `basic_argument_base_impl` (argument_base_impl.hpp,
not in src/); they are modelled from the spec: every argument starts with
arity (0, 1), adjustable through the setters below. -/
structure Argument where
  kind : ArgKind
  names : List String
  min_count : Nat
  max_count : Option Nat
deriving DecidableEq, Repr

instance : Inhabited Argument := ⟨⟨ArgKind.SWITCH, [], 0, some 1⟩⟩

/-- Modelled from the spec: `is_assignable_by_name`
(argument_base_impl.hpp is not in src/).  Positional arguments and the
sub-command dispatcher have no name prefix and are matched by position
(spec section 3); every other kind is matched by name. -/
def is_assignable_by_name (a : Argument) : Bool :=
  match a.kind with
  | .POSITIONAL => false
  | .SUBPARSER => false
  | _ => true

/-- State of `basic_argument_repository` plus the dictionary literals it
consults.  `pool` is the arena of all created arguments; `m_arguments`,
`m_subparsers_argument` and `m_names_repository` hold arena indices. -/
structure Repository where
  value_separator : String
  subparser_separator : String
  switch_enabled_literal : String
  pool : List Argument
  m_arguments : List Nat
  m_subparsers_argument : Option Nat
  m_names_repository : List (String × Nat)
deriving DecidableEq, Repr

/-- A fresh repository over the given dictionary literals. -/
def mkRepository (vsep ssep sw : String) : Repository :=
  ⟨vsep, ssep, sw, [], [], none, []⟩

/-- Name lookup in `m_names_repository`. -/
def find_name (r : Repository) (s : String) : Option Nat :=
  (r.m_names_repository.find? (fun e => e.1 == s)).map (fun e => e.2)

/-- Dereference an arena index. -/
def get_arg (r : Repository) (i : Nat) : Argument :=
  r.pool.getD i default

/-- `ensure_name_characters_valid` (argument_repository.hpp:196): rejects the
empty name, whitespace, the value-separator literal and the
subparser-separator literal.  All four throw sites raise
`invalid_argument_name_ex`, mapped to `InvalidName`. -/
def ensure_name_characters_valid (r : Repository) (name : String) :
    Except ConfigError Unit :=
  if name.data.isEmpty then .error .InvalidName
  else if name.data.any is_space then .error .InvalidName
  else if contains_lit name r.value_separator then .error .InvalidName
  else if contains_lit name r.subparser_separator then .error .InvalidName
  else .ok ()

/-- `ensure_names_characters_valid` (argument_repository.hpp:188). -/
def ensure_names_characters_valid (r : Repository) :
    List String → Except ConfigError Unit
  | [] => .ok ()
  | n :: rest =>
    match ensure_name_characters_valid r n with
    | .error e => .error e
    | .ok () => ensure_names_characters_valid r rest

/-- `ensure_no_duplicated_names` (argument_repository.hpp:225); the throw is
message "duplicated name", mapped to `DuplicateName`. -/
def ensure_no_duplicated_names (names : List String) : Except ConfigError Unit :=
  if OldParser.has_intra_duplicates names then .error .DuplicateName else .ok ()

/-- `ensure_names_not_registered` (argument_repository.hpp:163); the throw is
message "argument with given name already registered", mapped to
`DuplicateName`. -/
def ensure_names_not_registered (r : Repository) (names : List String) :
    Except ConfigError Unit :=
  if names.any (fun n => (find_name r n).isSome) then .error .DuplicateName
  else .ok ()

/-- `check_names` (argument_repository.hpp:174). -/
def check_names (r : Repository) (names : List String) : Except ConfigError Unit :=
  if names.length < 1 then .error .InvalidName
  else
    match ensure_names_characters_valid r names with
    | .error e => .error e
    | .ok () =>
      match ensure_no_duplicated_names names with
      | .error e => .error e
      | .ok () => ensure_names_not_registered r names

/-- `has_positional_arguments` (argument_repository.hpp:142): some owned
argument is not assignable by name. -/
def has_positional_arguments (r : Repository) : Bool :=
  r.m_arguments.any (fun i => !is_assignable_by_name (get_arg r i))

/-- `add_to_names_repository` (argument_repository.hpp:155). -/
def add_to_names_repository (r : Repository) (idx : Nat) (names : List String) :
    Repository :=
  { r with m_names_repository := r.m_names_repository ++ names.map (fun n => (n, idx)) }

/-- Shared tail of `add_exclusive` / `add_switch` / `add_valued` /
`add_positional`: create the argument, register its names, append it to
`m_arguments`. -/
def register_argument (r : Repository) (arg : Argument) : Repository × Nat :=
  let idx := r.pool.length
  let r1 := { r with pool := r.pool ++ [arg] }
  let r2 := add_to_names_repository r1 idx arg.names
  ({ r2 with m_arguments := r2.m_arguments ++ [idx] }, idx)

/-- `add_exclusive` (argument_repository.hpp:65). -/
def add_exclusive (r : Repository) (names : List String) :
    Except (ConfigError × Repository) (Repository × Nat) :=
  match check_names r names with
  | .error e => .error (e, r)
  | .ok () => .ok (register_argument r ⟨ArgKind.EXCLUSIVE, names, 0, some 1⟩)

/-- `add_switch` (argument_repository.hpp:77). -/
def add_switch (r : Repository) (names : List String) :
    Except (ConfigError × Repository) (Repository × Nat) :=
  match check_names r names with
  | .error e => .error (e, r)
  | .ok () => .ok (register_argument r ⟨ArgKind.SWITCH, names, 0, some 1⟩)

/-- `add_valued` (argument_repository.hpp:89). -/
def add_valued (r : Repository) (names : List String) :
    Except (ConfigError × Repository) (Repository × Nat) :=
  match check_names r names with
  | .error e => .error (e, r)
  | .ok () => .ok (register_argument r ⟨ArgKind.VALUED, names, 0, some 1⟩)

/-- `add_positional` (argument_repository.hpp:101): name checks, then the
conflict check against a registered sub-command dispatcher
(`subparser_positional_conflict`, mapped to `StructuralConflict`). -/
def add_positional (r : Repository) (name : String) :
    Except (ConfigError × Repository) (Repository × Nat) :=
  match check_names r [name] with
  | .error e => .error (e, r)
  | .ok () =>
    match r.m_subparsers_argument with
    | some _ => .error (.StructuralConflict, r)
    | none => .ok (register_argument r ⟨ArgKind.POSITIONAL, [name], 0, some 1⟩)

/-- `add_subparsers` (argument_repository.hpp:119): name checks, then the two
conflict checks (an existing dispatcher, an existing positional argument).
The dispatcher is recorded in `m_subparsers_argument` and the name table but
not in `m_arguments`. -/
def add_subparsers (r : Repository) (name : String) :
    Except (ConfigError × Repository) (Repository × Nat) :=
  match check_names r [name] with
  | .error e => .error (e, r)
  | .ok () =>
    match r.m_subparsers_argument with
    | some _ => .error (.StructuralConflict, r)
    | none =>
      if has_positional_arguments r then .error (.StructuralConflict, r)
      else
        let idx := r.pool.length
        let r1 := { r with pool := r.pool ++ [⟨ArgKind.SUBPARSER, [name], 0, some 1⟩] }
        let r2 := add_to_names_repository r1 idx [name]
        .ok ({ r2 with m_subparsers_argument := some idx }, idx)

/-- `set_min_count` (positional_argument_impl.hpp:49), applied through the
handle returned by registration; arena update at the argument's index. -/
def set_min_count (r : Repository) (idx count : Nat) : Repository :=
  match r.pool.getD idx default with
  | a => { r with pool := r.pool.set idx { a with min_count := count } }

/-- `set_max_count` (positional_argument_impl.hpp:54). -/
def set_max_count (r : Repository) (idx count : Nat) : Repository :=
  match r.pool.getD idx default with
  | a => { r with pool := r.pool.set idx { a with max_count := some count } }

/-- `set_max_count_unlimited` (positional_argument_impl.hpp:59). -/
def set_max_count_unlimited (r : Repository) (idx : Nat) : Repository :=
  match r.pool.getD idx default with
  | a => { r with pool := r.pool.set idx { a with max_count := none } }

/-- State reached by a registration-call outcome, whether it succeeded or
threw (a throw leaves the repository in the state carried by the error). -/
def reg_out : Except (ConfigError × Repository) (Repository × Nat) → Repository
  | .error (_, r) => r
  | .ok (r, _) => r

/-- Repositories reachable from a fresh one through the public registration
and configuration calls, keeping the state of both successful and failed
calls. -/
inductive Reachable : Repository → Prop
  | init (vsep ssep sw : String) : Reachable (mkRepository vsep ssep sw)
  | exclusive_step (names : List String) (r : Repository) :
      Reachable r → Reachable (reg_out (add_exclusive r names))
  | switch_step (names : List String) (r : Repository) :
      Reachable r → Reachable (reg_out (add_switch r names))
  | valued_step (names : List String) (r : Repository) :
      Reachable r → Reachable (reg_out (add_valued r names))
  | positional_step (name : String) (r : Repository) :
      Reachable r → Reachable (reg_out (add_positional r name))
  | subparsers_step (name : String) (r : Repository) :
      Reachable r → Reachable (reg_out (add_subparsers r name))
  | min_count_step (idx count : Nat) (r : Repository) :
      Reachable r → Reachable (set_min_count r idx count)
  | max_count_step (idx count : Nat) (r : Repository) :
      Reachable r → Reachable (set_max_count r idx count)
  | max_unlimited_step (idx : Nat) (r : Repository) :
      Reachable r → Reachable (set_max_count_unlimited r idx)

end Repo

namespace OldParser

/-- State reached by a registration-call outcome of the old parser. -/
def reg_out : Except (ConfigError × ParserData) (ParserData × Nat) → ParserData
  | .error (_, p) => p
  | .ok (p, _) => p

/-- Parser states reachable from a fresh `basic_parser` through its public
registration API (parse does not mutate the parser). -/
inductive Reachable : ParserData → Prop
  | init (eq : Char) (sw : String) : Reachable (mkParserData eq sw)
  | switch_step (names : List String) (p : ParserData) :
      Reachable p → Reachable (reg_out (add_switch p names))
  | valued_step (names : List String) (p : ParserData) :
      Reachable p → Reachable (reg_out (add_valued p names))
  | positional_step (name : String) (required multivalue : Bool) (p : ParserData) :
      Reachable p → Reachable (reg_out (add_positional p name required multivalue))

end OldParser

namespace Engine

/-!
Modelled from the spec: the parsing engine that drives a
`basic_argument_repository` (internal/parser.hpp and the argument handlers)
is not in src/; only its registration side is.  The engine below follows
spec sections 4.2 and 4.3 word by word: the named phase splits a token at
the first occurrence of the value-separator literal, resolves the name,
dispatches on the argument kind, enforces the arity bound before recording,
and enforces exclusive-group semantics (a member of an exclusive group is
one alias of the group's argument; triggering a member while a different
member of the same group was already triggered in this parse fails with
`ExclusiveConflict`).  Sub-command delegation is not modelled; theorems
about this engine assume no dispatcher is registered.
-/

open Repo

/-- In-flight parse state: the value log (argument identity, value) and, for
exclusive groups, which member name triggered the group. -/
structure EngineState where
  results : List (Nat × String)
  triggered : List (Nat × String)
deriving DecidableEq, Repr

/-- Number of values recorded for one argument. -/
def value_count (st : EngineState) (idx : Nat) : Nat :=
  (st.results.filter (fun e => e.1 == idx)).length

/-- Record one value, enforcing the arity bound first (spec 4.2 step 3:
fails with `TooManyOccurrences` if the recorded-value count already equals
the maximum count). -/
def record_value (r : Repository) (st : EngineState) (idx : Nat) (v : String) :
    Except ParseError EngineState :=
  match (get_arg r idx).max_count with
  | some m =>
    if value_count st idx ≥ m then .error .TooManyOccurrences
    else .ok { st with results := st.results ++ [(idx, v)] }
  | none => .ok { st with results := st.results ++ [(idx, v)] }

/-- Split a token at the first occurrence of the value-separator literal
(spec 4.2 step 1). -/
def split_value (r : Repository) (s : String) : Option (String × String) :=
  match splitOnceStr r.value_separator.data s.data with
  | none => none
  | some (a, b) => some (String.mk a, String.mk b)

/-- One named-phase step (spec 4.2 steps 1-4).  `ok none` ends the phase
with the token unconsumed. -/
def named_step (r : Repository) (st : EngineState) (input : List String) :
    Except ParseError (Option (EngineState × List String)) :=
  match input with
  | [] => .ok none
  | tok :: rest =>
    match split_value r tok with
    | none =>
      match find_name r tok with
      | none => .ok none
      | some idx =>
        match (get_arg r idx).kind with
        | .VALUED =>
          match rest with
          | [] => .error .MissingValue
          | value_str :: rest2 =>
            match record_value r st idx value_str with
            | .error e => .error e
            | .ok st2 => .ok (some (st2, rest2))
        | .SWITCH =>
          match record_value r st idx r.switch_enabled_literal with
          | .error e => .error e
          | .ok st2 => .ok (some (st2, rest))
        | .EXCLUSIVE =>
          if st.triggered.any (fun e => e.1 == idx && e.2 != tok) then
            .error .ExclusiveConflict
          else
            match record_value r st idx r.switch_enabled_literal with
            | .error e => .error e
            | .ok st2 =>
              .ok (some ({ st2 with triggered := st2.triggered ++ [(idx, tok)] }, rest))
        | _ => .ok none
    | some (name_str, value_str) =>
      match find_name r name_str with
      | none => .ok none
      | some idx =>
        match (get_arg r idx).kind with
        | .VALUED =>
          match record_value r st idx value_str with
          | .error e => .error e
          | .ok st2 => .ok (some (st2, rest))
        | .SWITCH => .error .UnexpectedValue
        | .EXCLUSIVE => .error .UnexpectedValue
        | _ => .ok none

/-- Named-phase loop with fuel; every successful step consumes at least one
token, so fuel equal to the input length never runs out. -/
def named_loop (r : Repository) :
    Nat → EngineState → List String → Except ParseError (EngineState × List String)
  | 0, st, input => .ok (st, input)
  | fuel + 1, st, input =>
    match input with
    | [] => .ok (st, [])
    | tok :: rest =>
      match named_step r st (tok :: rest) with
      | .error e => .error e
      | .ok none => .ok (st, tok :: rest)
      | .ok (some (st2, rest2)) => named_loop r fuel st2 rest2

/-- The positional slots: owned arguments of positional kind, in
registration order (spec 4.1/4.3). -/
def positional_slots (r : Repository) : List Nat :=
  r.m_arguments.filter (fun i => (get_arg r i).kind == ArgKind.POSITIONAL)

/-- Positional consumption loop (spec 4.3 steps 1-3): advance to the next
slot only when the current slot's maximum count is exactly 1. -/
def positional_loop (r : Repository) (st : EngineState) :
    List Nat → List String → Except ParseError (EngineState × List Nat)
  | slots, [] => .ok (st, slots)
  | [], _ :: _ => .error .UnexpectedArgument
  | idx :: slots_rest, value_str :: rest =>
    match record_value r st idx value_str with
    | .error e => .error e
    | .ok st2 =>
      if (get_arg r idx).max_count = some 1 then
        positional_loop r st2 slots_rest rest
      else
        positional_loop r st2 (idx :: slots_rest) rest

/-- Check of the remaining slots (spec 4.3 step 4): a slot with minimum
count greater than zero and zero collected values is an error. -/
def check_required (r : Repository) (st : EngineState) :
    List Nat → Except ParseError Unit
  | [] => .ok ()
  | idx :: rest =>
    if 0 < (get_arg r idx).min_count ∧ value_count st idx = 0 then
      .error .RequiredArgumentMissing
    else check_required r st rest

/-- Full parse over a repository without a sub-command dispatcher: named
phase, positional phase, required check (spec 4.2-4.3). -/
def parse (r : Repository) (input : List String) : Except ParseError EngineState :=
  match named_loop r input.length ⟨[], []⟩ input with
  | .error e => .error e
  | .ok (st1, rest) =>
    match positional_loop r st1 (positional_slots r) rest with
    | .error e => .error e
    | .ok (st2, slots) =>
      match check_required r st2 slots with
      | .error e => .error e
      | .ok () => .ok st2

end Engine

/-!
Concrete example states used by the claim theorems and their witnesses.
-/

/-- An old parser with one valued argument named "--opt" (max count 1). -/
def valuedOptParser : OldParser.ParserData :=
  ⟨'=', "true", [⟨OldParser.ArgKind.VALUED, ["--opt"], false, some 1⟩], [("--opt", 0)], []⟩

/-- An old parser with one required single-valued positional argument. -/
def requiredPositionalParser : OldParser.ParserData :=
  ⟨'=', "true", [⟨OldParser.ArgKind.POSITIONAL, ["name"], true, some 1⟩], [("name", 0)], [0]⟩

/-- An old parser whose first positional argument is required and multivalue
and whose second is required and single-valued. -/
def multiPositionalParser : OldParser.ParserData :=
  ⟨'=', "true",
    [⟨OldParser.ArgKind.POSITIONAL, ["src"], true, none⟩,
     ⟨OldParser.ArgKind.POSITIONAL, ["dst"], true, some 1⟩],
    [("src", 0), ("dst", 1)], [0, 1]⟩

/-- A repository with one exclusive group of two members "--a" and "--b"
(one exclusive argument with two aliases). -/
def exclusiveRepo : Repo.Repository :=
  ⟨"=", "/", "true", [⟨Repo.ArgKind.EXCLUSIVE, ["--a", "--b"], 0, some 1⟩], [0], none,
    [("--a", 0), ("--b", 0)]⟩

/-- A repository holding just a sub-command dispatcher named "cmd". -/
def subparserRepo : Repo.Repository :=
  Repo.reg_out (Repo.add_subparsers (Repo.mkRepository "=" "/" "true") "cmd")

/-- A parser built through the public API whose only positional argument is
required and multivalue. -/
def multivalueFirstParser : OldParser.ParserData :=
  OldParser.reg_out
    (OldParser.add_positional (OldParser.mkParserData '=' "true") "src" true true)

/-!
Claim theorems.
-/

/-- C5: recording a value when the argument's recorded-value count already
equals its maximum count fails with TooManyOccurrences (the check runs
before the value is appended, so nothing is recorded); in particular a
valued argument of max count 1 makes
parse ["--opt", "a", "--opt", "b"] fail with TooManyOccurrences. -/
theorem claim_C5 (p : OldParser.ParserData) (res : OldParser.Results) (idx : Nat)
    (v : String) (m : Nat)
    (hmax : (OldParser.get_arg p idx).max_count = some m)
    (hcount : OldParser.value_count res idx = m) :
    OldParser.parse_argument_value p res idx v = .error .TooManyOccurrences ∧
    OldParser.parse valuedOptParser ["--opt", "a", "--opt", "b"] =
      .error .TooManyOccurrences := by
  constructor
  · unfold OldParser.parse_argument_value
    simp [OldParser.max_count_reached, hmax, hcount]
  · decide

/-- C5 witness: concrete instance at the valued "--opt" parser with one value
already recorded. -/
theorem claim_C5_witness :
    OldParser.parse_argument_value valuedOptParser [(0, "a")] 0 "b" =
      .error .TooManyOccurrences ∧
    OldParser.parse valuedOptParser ["--opt", "a", "--opt", "b"] =
      .error .TooManyOccurrences :=
  claim_C5 valuedOptParser [(0, "a")] 0 "b" 1 (by decide) (by decide)

/-- C6: after the input is exhausted, the remaining-slot check fails with
RequiredArgumentMissing exactly when some remaining slot is required and has
collected zero values (and it can fail no other way); in particular one
required positional argument and the empty input fail with
RequiredArgumentMissing. -/
theorem claim_C6 (p : OldParser.ParserData) (res : OldParser.Results)
    (slots : List Nat) :
    (OldParser.check_required_positionals p res slots =
        .error .RequiredArgumentMissing ↔
      ∃ idx, idx ∈ slots ∧ (OldParser.get_arg p idx).required = true ∧
        OldParser.value_count res idx = 0) ∧
    (OldParser.check_required_positionals p res slots = .ok () ∨
      OldParser.check_required_positionals p res slots =
        .error .RequiredArgumentMissing) ∧
    OldParser.parse requiredPositionalParser [] = .error .RequiredArgumentMissing := by
  refine ⟨?_, ?_, by decide⟩
  · induction slots with
    | nil => simp [OldParser.check_required_positionals]
    | cons idx rest ih =>
      unfold OldParser.check_required_positionals
      by_cases h1 : (OldParser.get_arg p idx).required = false
      · have h1x : ¬ ((OldParser.get_arg p idx).required = true) := by simp [h1]
        simp [h1, h1x, ih]
      · rw [Bool.not_eq_false] at h1
        by_cases h2 : OldParser.value_count res idx = 0
        · simp [h1, h2]
        · simp [h1, h2, ih]
  · induction slots with
    | nil => simp [OldParser.check_required_positionals]
    | cons idx rest ih =>
      unfold OldParser.check_required_positionals
      by_cases h1 : (OldParser.get_arg p idx).required = false
      · simp [h1, ih]
      · by_cases h2 : OldParser.value_count res idx = 0
        · simp [h1, h2]
        · simp [h1, h2, ih]

/-- C6 witness: concrete instance at the required-positional parser. -/
theorem claim_C6_witness :
    OldParser.check_required_positionals requiredPositionalParser [] [0] =
      .error .RequiredArgumentMissing :=
  (claim_C6 requiredPositionalParser [] [0]).1.mpr ⟨0, by decide, by decide, by decide⟩


/-- Helper: `parse_argument_value` either fails with TooManyOccurrences or
appends exactly one entry for the argument. -/
theorem parse_argument_value_cases (p : OldParser.ParserData)
    (res : OldParser.Results) (idx : Nat) (v : String) :
    OldParser.parse_argument_value p res idx v = .error .TooManyOccurrences ∨
    OldParser.parse_argument_value p res idx v = .ok (res ++ [(idx, v)]) := by
  unfold OldParser.parse_argument_value
  by_cases h : OldParser.max_count_reached (OldParser.get_arg p idx)
      (OldParser.value_count res idx) = true
  · left; simp [h]
  · right; simp [h]

/-- Helper: a maximum count greater than one is not the count one. -/
theorem max_count_gt_one_ne_one (a : OldParser.Argument)
    (h : OldParser.max_count_gt_one a = true) : a.max_count ≠ some 1 := by
  unfold OldParser.max_count_gt_one at h
  intro hc
  rw [hc] at h
  simp at h

/-- C2: in the positional phase, after recording a token into the current
slot the cursor advances exactly when the slot's maximum count is 1; a slot
whose maximum count is greater than 1 absorbs every remaining token (or
fails its own arity bound with TooManyOccurrences), so no later slot ever
receives a value. -/
theorem claim_C2 (p : OldParser.ParserData) (res : OldParser.Results) (idx : Nat)
    (slots_rest : List Nat) (input : List String) :
    (∀ tok rest res2,
        OldParser.parse_argument_value p res idx tok = .ok res2 →
        OldParser.parse_positional_loop p res (idx :: slots_rest) (tok :: rest) =
          OldParser.parse_positional_loop p res2
            (if (OldParser.get_arg p idx).max_count = some 1 then slots_rest
             else idx :: slots_rest) rest) ∧
    (OldParser.max_count_gt_one (OldParser.get_arg p idx) = true →
      OldParser.parse_positional_loop p res (idx :: slots_rest) input =
          .error .TooManyOccurrences ∨
        OldParser.parse_positional_loop p res (idx :: slots_rest) input =
          .ok (res ++ input.map (fun t => (idx, t)), idx :: slots_rest)) := by
  constructor
  · intro tok rest res2 hpv
    simp only [OldParser.parse_positional_loop, hpv]
    by_cases hc : (OldParser.get_arg p idx).max_count = some 1 <;> simp [hc]
  · intro hgt
    induction input generalizing res with
    | nil => right; simp [OldParser.parse_positional_loop]
    | cons tok rest ih =>
      rcases parse_argument_value_cases p res idx tok with hpv | hpv
      · left
        simp only [OldParser.parse_positional_loop, hpv]
      · have hne : (OldParser.get_arg p idx).max_count ≠ some 1 :=
          max_count_gt_one_ne_one _ hgt
        simp only [OldParser.parse_positional_loop, hpv]
        rw [if_neg hne]
        rcases ih (res ++ [(idx, tok)]) with h | h
        · left; exact h
        · right
          rw [h]
          simp

/-- C2 witness: the multivalue first slot of `multiPositionalParser` absorbs
both remaining tokens and the second slot receives nothing. -/
theorem claim_C2_witness :
    OldParser.parse_positional_loop multiPositionalParser [] [0, 1] ["x", "y"] =
        .error .TooManyOccurrences ∨
      OldParser.parse_positional_loop multiPositionalParser [] [0, 1] ["x", "y"] =
        .ok ([] ++ ["x", "y"].map (fun t => (0, t)), [0, 1]) :=
  (claim_C2 multiPositionalParser [] 0 [1] ["x", "y"]).2 (by decide)


/-- Helper: the required-slot check passes when no remaining slot is
required. -/
theorem check_required_ok_of_not_required (p : OldParser.ParserData)
    (res : OldParser.Results) :
    ∀ slots, (∀ j ∈ slots, (OldParser.get_arg p j).required = false) →
      OldParser.check_required_positionals p res slots = .ok () := by
  intro slots
  induction slots with
  | nil => intro _; simp [OldParser.check_required_positionals]
  | cons idx rest ih =>
    intro h
    unfold OldParser.check_required_positionals
    simp [h idx (by simp), ih (fun j hj => h j (by simp [hj]))]

/-- C4: against a registered valued argument named "--opt", the inline form
"--opt=val" (split at the first occurrence of the value separator) and the
two-token form "--opt" "val" produce identical parse results; when the
argument can hold a value and no required positional interferes, both
record exactly the value sequence ["val"]. -/
theorem claim_C4 (p : OldParser.ParserData) (idx : Nat)
    (h1 : OldParser.find_name p "--opt" = some idx)
    (h2 : (OldParser.get_arg p idx).kind = OldParser.ArgKind.VALUED)
    (h3 : p.equal_literal = '=') :
    OldParser.parse p ["--opt=val"] = OldParser.parse p ["--opt", "val"] ∧
    ((OldParser.get_arg p idx).max_count ≠ some 0 →
      (∀ j, j ∈ p.positional_arguments → (OldParser.get_arg p j).required = false) →
      OldParser.parse p ["--opt=val"] = .ok [(idx, "val")]) ∧
    OldParser.argument_values [(idx, "val")] idx = ["val"] := by
  have hsplit1 : OldParser.split_at_equal '=' "--opt=val" = some ("--opt", "val") := by
    decide
  have hsplit2 : OldParser.split_at_equal '=' "--opt" = none := by decide
  have hA : OldParser.parse_named_arguments p [] ["--opt=val"] =
      (match OldParser.parse_argument_value p [] idx "val" with
       | .error e => .error e
       | .ok res2 => .ok (res2, [])) := by
    unfold OldParser.parse_named_arguments
    simp only [List.length_cons, List.length_nil]
    simp only [OldParser.parse_named_arguments_go, OldParser.parse_named_argument,
      h3, hsplit1, h1, h2]
    cases hpv : OldParser.parse_argument_value p [] idx "val" <;>
      simp [OldParser.parse_named_arguments_go]
  have hB : OldParser.parse_named_arguments p [] ["--opt", "val"] =
      (match OldParser.parse_argument_value p [] idx "val" with
       | .error e => .error e
       | .ok res2 => .ok (res2, [])) := by
    unfold OldParser.parse_named_arguments
    simp only [List.length_cons, List.length_nil]
    simp only [OldParser.parse_named_arguments_go, OldParser.parse_named_argument,
      h3, hsplit2, h1, h2]
    cases hpv : OldParser.parse_argument_value p [] idx "val" <;>
      simp [OldParser.parse_named_arguments_go]
  refine ⟨?_, ?_, by simp [OldParser.argument_values]⟩
  · unfold OldParser.parse
    rw [hA, hB]
  · intro hmax hreq
    have hpv : OldParser.parse_argument_value p [] idx "val" = .ok [(idx, "val")] := by
      unfold OldParser.parse_argument_value
      have hmr : OldParser.max_count_reached (OldParser.get_arg p idx) 0 = false := by
        unfold OldParser.max_count_reached
        cases hm : (OldParser.get_arg p idx).max_count with
        | none => rfl
        | some m =>
          cases m with
          | zero => exact absurd hm hmax
          | succ k => simp
      simp [OldParser.value_count, hmr]
    unfold OldParser.parse
    rw [hA, hpv]
    simp [OldParser.parse_positional_loop,
      check_required_ok_of_not_required p [(idx, "val")] p.positional_arguments hreq]

/-- C4 witness: concrete instance at the valued "--opt" parser. -/
theorem claim_C4_witness :
    OldParser.parse valuedOptParser ["--opt=val"] = .ok [(0, "val")] :=
  (claim_C4 valuedOptParser 0 (by decide) (by decide) (by decide)).2.1 (by decide)
    (by decide)


/-- C9: every registration call that fails leaves the repository exactly as
it was — the error carries the state at the throw point, and in every
failing branch that state is the original one (all checks run before any
mutation). -/
theorem claim_C9 (p : OldParser.ParserData) (r : Repo.Repository)
    (names : List String) (name : String) (required multivalue : Bool) :
    (∀ e q, OldParser.add_switch p names = .error (e, q) → q = p) ∧
    (∀ e q, OldParser.add_valued p names = .error (e, q) → q = p) ∧
    (∀ e q, OldParser.add_positional p name required multivalue = .error (e, q) →
      q = p) ∧
    (∀ e q, Repo.add_exclusive r names = .error (e, q) → q = r) ∧
    (∀ e q, Repo.add_switch r names = .error (e, q) → q = r) ∧
    (∀ e q, Repo.add_valued r names = .error (e, q) → q = r) ∧
    (∀ e q, Repo.add_positional r name = .error (e, q) → q = r) ∧
    (∀ e q, Repo.add_subparsers r name = .error (e, q) → q = r) := by
  refine ⟨?_, ?_, ?_, ?_, ?_, ?_, ?_, ?_⟩
  · intro e q h
    unfold OldParser.add_switch at h
    repeat' split at h
    all_goals simp_all
  · intro e q h
    unfold OldParser.add_valued at h
    repeat' split at h
    all_goals simp_all
  · intro e q h
    unfold OldParser.add_positional at h
    repeat' split at h
    all_goals simp_all
  · intro e q h
    unfold Repo.add_exclusive at h
    repeat' split at h
    all_goals simp_all
  · intro e q h
    unfold Repo.add_switch at h
    repeat' split at h
    all_goals simp_all
  · intro e q h
    unfold Repo.add_valued at h
    repeat' split at h
    all_goals simp_all
  · intro e q h
    unfold Repo.add_positional at h
    repeat' split at h
    all_goals simp_all
  · intro e q h
    unfold Repo.add_subparsers at h
    repeat' split at h
    all_goals simp_all

/-- C9 witness: a duplicate-name registration fails and the carried state is
the original parser. -/
theorem claim_C9_witness :
    OldParser.add_switch valuedOptParser ["--opt"] =
      .error (.DuplicateName, valuedOptParser) ∧
    valuedOptParser = valuedOptParser :=
  ⟨by decide,
    (claim_C9 valuedOptParser (Repo.mkRepository "=" "/" "true") ["--opt"] "x"
      false false).1 .DuplicateName valuedOptParser (by decide)⟩


/-- Helper: the old parser's single-name character check returns ok or
InvalidName, nothing else. -/
theorem old_name_valid_cases (p : OldParser.ParserData) (n : String) :
    OldParser.ensure_name_characters_valid p n = .ok () ∨
    OldParser.ensure_name_characters_valid p n = .error .InvalidName := by
  unfold OldParser.ensure_name_characters_valid
  split_ifs <;> simp

/-- Helper: characterization of the old parser's single-name check. -/
theorem old_name_error_iff (p : OldParser.ParserData) (n : String) :
    OldParser.ensure_name_characters_valid p n = .error .InvalidName ↔
      (n.data = [] ∨ ∃ c ∈ n.data, is_space c = true ∨ c = p.equal_literal) := by
  unfold OldParser.ensure_name_characters_valid
  split_ifs with h0 hany
  · simp at h0
    simp [h0]
  · simp only [List.any_eq_true, Bool.or_eq_true, beq_iff_eq] at hany
    simp [hany]
  · simp at h0
    simp only [List.any_eq_true, Bool.or_eq_true, beq_iff_eq] at hany
    simp [h0, hany]

/-- Helper: the old parser's all-names character check fails with
InvalidName exactly when some name fails the single check. -/
theorem old_names_error_iff (p : OldParser.ParserData) :
    ∀ ns, (OldParser.ensure_names_characters_valid p ns = .error .InvalidName ↔
      ∃ n ∈ ns, OldParser.ensure_name_characters_valid p n = .error .InvalidName) := by
  intro ns
  induction ns with
  | nil => simp [OldParser.ensure_names_characters_valid]
  | cons n rest ih =>
    unfold OldParser.ensure_names_characters_valid
    rcases old_name_valid_cases p n with h | h
    · rw [h]
      simp [h, ih]
    · rw [h]
      simp [h]

/-- Helper: the old parser's all-names character check passes exactly when
every name passes the single check. -/
theorem old_names_ok_iff (p : OldParser.ParserData) :
    ∀ ns, (OldParser.ensure_names_characters_valid p ns = .ok () ↔
      ∀ n ∈ ns, OldParser.ensure_name_characters_valid p n = .ok ()) := by
  intro ns
  induction ns with
  | nil => simp [OldParser.ensure_names_characters_valid]
  | cons n rest ih =>
    unfold OldParser.ensure_names_characters_valid
    rcases old_name_valid_cases p n with h | h
    · rw [h]
      simp [h, ih]
    · rw [h]
      simp [h]

/-- Helper: the repository's single-name character check returns ok or
InvalidName, nothing else. -/
theorem repo_name_valid_cases (r : Repo.Repository) (n : String) :
    Repo.ensure_name_characters_valid r n = .ok () ∨
    Repo.ensure_name_characters_valid r n = .error .InvalidName := by
  unfold Repo.ensure_name_characters_valid
  split_ifs <;> simp

/-- Helper: characterization of the repository's single-name check. -/
theorem repo_name_error_iff (r : Repo.Repository) (n : String) :
    Repo.ensure_name_characters_valid r n = .error .InvalidName ↔
      (n.data = [] ∨ (∃ c ∈ n.data, is_space c = true) ∨
        contains_lit n r.value_separator = true ∨
        contains_lit n r.subparser_separator = true) := by
  unfold Repo.ensure_name_characters_valid
  split_ifs with h0 h1 h2 h3
  · simp at h0
    simp [h0]
  · simp only [List.any_eq_true] at h1
    simp [h1]
  · simp [h2]
  · simp [h3]
  · simp at h0
    simp only [List.any_eq_true] at h1
    simp [h0, h1, h2, h3]

/-- Helper: the repository's all-names character check fails with
InvalidName exactly when some name fails the single check. -/
theorem repo_names_error_iff (r : Repo.Repository) :
    ∀ ns, (Repo.ensure_names_characters_valid r ns = .error .InvalidName ↔
      ∃ n ∈ ns, Repo.ensure_name_characters_valid r n = .error .InvalidName) := by
  intro ns
  induction ns with
  | nil => simp [Repo.ensure_names_characters_valid]
  | cons n rest ih =>
    unfold Repo.ensure_names_characters_valid
    rcases repo_name_valid_cases r n with h | h
    · rw [h]
      simp [h, ih]
    · rw [h]
      simp [h]

/-- Helper: the repository's all-names character check passes exactly when
every name passes the single check. -/
theorem repo_names_ok_iff (r : Repo.Repository) :
    ∀ ns, (Repo.ensure_names_characters_valid r ns = .ok () ↔
      ∀ n ∈ ns, Repo.ensure_name_characters_valid r n = .ok ()) := by
  intro ns
  induction ns with
  | nil => simp [Repo.ensure_names_characters_valid]
  | cons n rest ih =>
    unfold Repo.ensure_names_characters_valid
    rcases repo_name_valid_cases r n with h | h
    · rw [h]
      simp [h, ih]
    · rw [h]
      simp [h]


/-- C7 counterexample: "a/b" contains the profile's sub-command separator
literal "/" and the repository path rejects it, yet basic_parser's
add_switch accepts it — so not every registration call fails with
InvalidName on a name containing the sub-command-separator literal. -/
theorem claim_C7_counterexample :
    contains_lit "a/b" "/" = true ∧
    Repo.add_switch (Repo.mkRepository "=" "/" "true") ["a/b"] =
      .error (.InvalidName, Repo.mkRepository "=" "/" "true") ∧
    OldParser.add_switch (OldParser.mkParserData '=' "true") ["a/b"] =
      .ok (⟨'=', "true", [⟨OldParser.ArgKind.SWITCH, ["a/b"], false, some 1⟩],
        [("a/b", 0)], []⟩, 0) := by
  decide

/-- C7 (amended): a registration call through the argument repository fails
with InvalidName exactly on an empty name set or a name that is empty,
contains whitespace, contains the value-separator literal or contains the
sub-command-separator literal; a registration call through basic_parser
applies the same checks except the sub-command-separator one (it checks only
empty set, empty name, whitespace, and the equal literal); a valid,
non-conflicting name set passes the whole name check on either path. -/
theorem claim_C7 (p : OldParser.ParserData) (r : Repo.Repository)
    (ns : List String) (n : String) :
    (Repo.ensure_name_characters_valid r n = .error .InvalidName ↔
      (n.data = [] ∨ (∃ c ∈ n.data, is_space c = true) ∨
        contains_lit n r.value_separator = true ∨
        contains_lit n r.subparser_separator = true)) ∧
    (OldParser.ensure_name_characters_valid p n = .error .InvalidName ↔
      (n.data = [] ∨ ∃ c ∈ n.data, is_space c = true ∨ c = p.equal_literal)) ∧
    ((ns = [] ∨ ∃ m ∈ ns, Repo.ensure_name_characters_valid r m = .error .InvalidName) →
      Repo.check_names r ns = .error .InvalidName) ∧
    ((ns = [] ∨
        ∃ m ∈ ns, OldParser.ensure_name_characters_valid p m = .error .InvalidName) →
      OldParser.check_names p ns = .error .InvalidName) ∧
    ((ns ≠ [] ∧ (∀ m ∈ ns, Repo.ensure_name_characters_valid r m = .ok ()) ∧
        OldParser.has_intra_duplicates ns = false ∧
        (∀ m ∈ ns, Repo.find_name r m = none)) →
      Repo.check_names r ns = .ok ()) ∧
    ((ns ≠ [] ∧ (∀ m ∈ ns, OldParser.ensure_name_characters_valid p m = .ok ()) ∧
        OldParser.has_intra_duplicates ns = false ∧
        (∀ m ∈ ns, OldParser.find_name p m = none)) →
      OldParser.check_names p ns = .ok ()) := by
  refine ⟨repo_name_error_iff r n, old_name_error_iff p n, ?_, ?_, ?_, ?_⟩
  · intro h
    unfold Repo.check_names
    rcases h with h | ⟨m, hm, herr⟩
    · subst h
      simp
    · have hlen : ¬ (ns.length < 1) := by
        cases ns with
        | nil => simp at hm
        | cons a l => simp
      rw [if_neg hlen, (repo_names_error_iff r ns).mpr ⟨m, hm, herr⟩]
  · intro h
    unfold OldParser.check_names
    rcases h with h | ⟨m, hm, herr⟩
    · subst h
      simp
    · have hlen : ¬ (ns.length < 1) := by
        cases ns with
        | nil => simp at hm
        | cons a l => simp
      rw [if_neg hlen, (old_names_error_iff p ns).mpr ⟨m, hm, herr⟩]
  · rintro ⟨hne, hvalid, hdup, hreg⟩
    unfold Repo.check_names
    have hlen : ¬ (ns.length < 1) := by
      cases ns with
      | nil => exact absurd rfl hne
      | cons a l => simp
    rw [if_neg hlen, (repo_names_ok_iff r ns).mpr hvalid]
    unfold Repo.ensure_no_duplicated_names
    rw [if_neg (by simp [hdup])]
    unfold Repo.ensure_names_not_registered
    have hany : ns.any (fun m => (Repo.find_name r m).isSome) = false := by
      rw [List.any_eq_false]
      intro x hx
      rw [hreg x hx]
      simp
    simp [hany]
  · rintro ⟨hne, hvalid, hdup, hreg⟩
    unfold OldParser.check_names
    have hlen : ¬ (ns.length < 1) := by
      cases ns with
      | nil => exact absurd rfl hne
      | cons a l => simp
    rw [if_neg hlen, (old_names_ok_iff p ns).mpr hvalid]
    unfold OldParser.ensure_no_duplicated_names
    rw [if_neg (by simp [hdup])]
    unfold OldParser.ensure_names_not_registered
    have hany : ns.any (fun m => (OldParser.find_name p m).isSome) = false := by
      rw [List.any_eq_false]
      intro x hx
      rw [hreg x hx]
      simp
    simp [hany]

/-- C7 witness: a name containing whitespace makes basic_parser's name check
fail with InvalidName. -/
theorem claim_C7_witness :
    OldParser.check_names (OldParser.mkParserData '=' "true") ["a b"] =
      .error .InvalidName :=
  (claim_C7 (OldParser.mkParserData '=' "true") (Repo.mkRepository "=" "/" "true")
    ["a b"] "a b").2.2.2.1 (Or.inr ⟨"a b", by decide, by decide⟩)

/-- C8: with character-valid names, a registration call fails with
DuplicateName — a constructor distinct from InvalidName — when two names in
the call are identical or some name is already present in the name table,
on either registration path and independently of argument kinds. -/
theorem claim_C8 (p : OldParser.ParserData) (r : Repo.Repository)
    (ns : List String) :
    ((∀ m ∈ ns, Repo.ensure_name_characters_valid r m = .ok ()) →
      (OldParser.has_intra_duplicates ns = true ∨
        ∃ m ∈ ns, (Repo.find_name r m).isSome = true) →
      Repo.check_names r ns = .error .DuplicateName) ∧
    ((∀ m ∈ ns, OldParser.ensure_name_characters_valid p m = .ok ()) →
      (OldParser.has_intra_duplicates ns = true ∨
        ∃ m ∈ ns, (OldParser.find_name p m).isSome = true) →
      OldParser.check_names p ns = .error .DuplicateName) ∧
    ConfigError.DuplicateName ≠ ConfigError.InvalidName := by
  refine ⟨?_, ?_, by decide⟩
  · intro hvalid hdup
    have hne : ns ≠ [] := by
      rcases hdup with hd | ⟨m, hm, _⟩
      · intro h
        rw [h] at hd
        simp [OldParser.has_intra_duplicates] at hd
      · intro h
        rw [h] at hm
        simp at hm
    unfold Repo.check_names
    have hlen : ¬ (ns.length < 1) := by
      cases ns with
      | nil => exact absurd rfl hne
      | cons a l => simp
    rw [if_neg hlen, (repo_names_ok_iff r ns).mpr hvalid]
    unfold Repo.ensure_no_duplicated_names
    rcases hdup with hd | ⟨m, hm, hr⟩
    · rw [if_pos hd]
    · by_cases hd2 : OldParser.has_intra_duplicates ns = true
      · rw [if_pos hd2]
      · rw [if_neg hd2]
        unfold Repo.ensure_names_not_registered
        rw [if_pos (List.any_eq_true.mpr ⟨m, hm, hr⟩)]
  · intro hvalid hdup
    have hne : ns ≠ [] := by
      rcases hdup with hd | ⟨m, hm, _⟩
      · intro h
        rw [h] at hd
        simp [OldParser.has_intra_duplicates] at hd
      · intro h
        rw [h] at hm
        simp at hm
    unfold OldParser.check_names
    have hlen : ¬ (ns.length < 1) := by
      cases ns with
      | nil => exact absurd rfl hne
      | cons a l => simp
    rw [if_neg hlen, (old_names_ok_iff p ns).mpr hvalid]
    unfold OldParser.ensure_no_duplicated_names
    rcases hdup with hd | ⟨m, hm, hr⟩
    · rw [if_pos hd]
    · by_cases hd2 : OldParser.has_intra_duplicates ns = true
      · rw [if_pos hd2]
      · rw [if_neg hd2]
        unfold OldParser.ensure_names_not_registered
        rw [if_pos (List.any_eq_true.mpr ⟨m, hm, hr⟩)]

/-- C8 witness: registering "--opt" again in the parser that already holds a
valued "--opt" fails the name check with DuplicateName. -/
theorem claim_C8_witness :
    OldParser.check_names valuedOptParser ["--opt"] = .error .DuplicateName :=
  (claim_C8 valuedOptParser (Repo.mkRepository "=" "/" "true") ["--opt"]).2.1
    (by decide) (Or.inr ⟨"--opt", by decide, by decide⟩)


/-- Helper: `any` only looks at the function's values on the list. -/
theorem list_any_congr {α : Type} (l : List α) (f g : α → Bool)
    (h : ∀ x ∈ l, f x = g x) : l.any f = l.any g := by
  induction l with
  | nil => rfl
  | cons x xs ih =>
    simp only [List.any_cons, h x (by simp), ih (fun y hy => h y (by simp [hy]))]

/-- Helper: reading the freshly appended element of an arena. -/
theorem getD_concat_length {α : Type} (l : List α) (a d : α) :
    (l ++ [a]).getD l.length d = a := by
  rw [List.getD_append_right l [a] d l.length (le_refl _)]
  simp [List.getD]

/-- Helper: the fields of a successful repository registration. -/
theorem register_argument_fields (r : Repo.Repository) (arg : Repo.Argument) :
    (Repo.register_argument r arg).1.pool = r.pool ++ [arg] ∧
    (Repo.register_argument r arg).1.m_arguments = r.m_arguments ++ [r.pool.length] ∧
    (Repo.register_argument r arg).1.m_subparsers_argument =
      r.m_subparsers_argument := by
  refine ⟨rfl, rfl, rfl⟩

/-- Helper: within the arena bound, dereferencing is stable under appending
a new argument. -/
theorem get_arg_append (r : Repo.Repository) (arg : Repo.Argument) (i : Nat)
    (h : i < r.pool.length) :
    (Repo.get_arg (Repo.register_argument r arg).1 i) = Repo.get_arg r i := by
  unfold Repo.get_arg
  rw [(register_argument_fields r arg).1]
  exact List.getD_append r.pool [arg] default i h

/-- Helper: how a successful registration changes `has_positional_arguments`. -/
theorem has_positional_register (r : Repo.Repository) (arg : Repo.Argument)
    (hwf : ∀ i ∈ r.m_arguments, i < r.pool.length) :
    Repo.has_positional_arguments (Repo.register_argument r arg).1 =
      (Repo.has_positional_arguments r || !Repo.is_assignable_by_name arg) := by
  unfold Repo.has_positional_arguments
  rw [(register_argument_fields r arg).2.1, List.any_append]
  have h1 : (r.m_arguments.any fun i =>
      !Repo.is_assignable_by_name (Repo.get_arg (Repo.register_argument r arg).1 i)) =
      (r.m_arguments.any fun i =>
        !Repo.is_assignable_by_name (Repo.get_arg r i)) := by
    apply list_any_congr
    intro i hi
    rw [get_arg_append r arg i (hwf i hi)]
  rw [h1]
  have h2 : Repo.get_arg (Repo.register_argument r arg).1 r.pool.length = arg := by
    unfold Repo.get_arg
    rw [(register_argument_fields r arg).1]
    exact getD_concat_length r.pool arg default
  simp [h2]

/-- Helper: outcome analysis of `add_exclusive`. -/
theorem add_exclusive_out (r : Repo.Repository) (ns : List String) :
    Repo.reg_out (Repo.add_exclusive r ns) = r ∨
    Repo.reg_out (Repo.add_exclusive r ns) =
      (Repo.register_argument r ⟨Repo.ArgKind.EXCLUSIVE, ns, 0, some 1⟩).1 := by
  unfold Repo.add_exclusive Repo.reg_out
  cases Repo.check_names r ns <;> simp

/-- Helper: outcome analysis of `Repo.add_switch`. -/
theorem repo_add_switch_out (r : Repo.Repository) (ns : List String) :
    Repo.reg_out (Repo.add_switch r ns) = r ∨
    Repo.reg_out (Repo.add_switch r ns) =
      (Repo.register_argument r ⟨Repo.ArgKind.SWITCH, ns, 0, some 1⟩).1 := by
  unfold Repo.add_switch Repo.reg_out
  cases Repo.check_names r ns <;> simp

/-- Helper: outcome analysis of `Repo.add_valued`. -/
theorem repo_add_valued_out (r : Repo.Repository) (ns : List String) :
    Repo.reg_out (Repo.add_valued r ns) = r ∨
    Repo.reg_out (Repo.add_valued r ns) =
      (Repo.register_argument r ⟨Repo.ArgKind.VALUED, ns, 0, some 1⟩).1 := by
  unfold Repo.add_valued Repo.reg_out
  cases Repo.check_names r ns <;> simp

/-- Helper: outcome analysis of `Repo.add_positional`; success implies no
dispatcher was registered. -/
theorem repo_add_positional_out (r : Repo.Repository) (n : String) :
    Repo.reg_out (Repo.add_positional r n) = r ∨
    (r.m_subparsers_argument = none ∧
      Repo.reg_out (Repo.add_positional r n) =
        (Repo.register_argument r ⟨Repo.ArgKind.POSITIONAL, [n], 0, some 1⟩).1) := by
  unfold Repo.add_positional Repo.reg_out
  cases Repo.check_names r [n] with
  | error e => simp
  | ok u =>
    cases u
    cases hs : r.m_subparsers_argument with
    | some i => simp
    | none => simp

/-- Helper: outcome analysis of `add_subparsers`; success implies there were
no positional arguments, and the owned-argument list does not change. -/
theorem add_subparsers_out (r : Repo.Repository) (n : String) :
    Repo.reg_out (Repo.add_subparsers r n) = r ∨
    (Repo.has_positional_arguments r = false ∧
      (Repo.reg_out (Repo.add_subparsers r n)).m_arguments = r.m_arguments ∧
      (Repo.reg_out (Repo.add_subparsers r n)).pool =
        r.pool ++ [⟨Repo.ArgKind.SUBPARSER, [n], 0, some 1⟩]) := by
  unfold Repo.add_subparsers Repo.reg_out
  cases Repo.check_names r [n] with
  | error e => simp
  | ok u =>
    cases u
    cases hs : r.m_subparsers_argument with
    | some i => simp
    | none =>
      by_cases hp : Repo.has_positional_arguments r
      · simp [hp]
      · simp [hp, Repo.add_to_names_repository]
      

/-- Helper: a kind-preserving arena update does not change the kind read at
any index. -/
theorem getD_set_kind (pool : List Repo.Argument) (idx i : Nat)
    (a : Repo.Argument) (hk : a.kind = (pool.getD idx default).kind) :
    ((pool.set idx a).getD i default).kind = ((pool.getD i default)).kind := by
  induction pool generalizing idx i with
  | nil => simp [List.set]
  | cons x xs ih =>
    cases idx with
    | zero =>
      cases i with
      | zero => simpa using hk
      | succ j => simp
    | succ k =>
      cases i with
      | zero => simp
      | succ j =>
        simp only [List.getD_cons_succ] at hk
        simp only [List.set, List.getD_cons_succ]
        exact ih k j hk

/-- Helper: a kind-preserving arena update does not change
`has_positional_arguments`. -/
theorem has_positional_pool_set (r : Repo.Repository) (idx : Nat)
    (a : Repo.Argument) (hk : a.kind = (r.pool.getD idx default).kind) :
    Repo.has_positional_arguments { r with pool := r.pool.set idx a } =
      Repo.has_positional_arguments r := by
  unfold Repo.has_positional_arguments
  apply list_any_congr
  intro i hi
  have hki := getD_set_kind r.pool idx i a hk
  have hassign : Repo.is_assignable_by_name
      (Repo.get_arg { r with pool := r.pool.set idx a } i) =
      Repo.is_assignable_by_name (Repo.get_arg r i) := by
    unfold Repo.is_assignable_by_name Repo.get_arg
    rw [hki]
  rw [hassign]

/-- Helper: an assignable-kind registration, or any registration into a
repository without a dispatcher, preserves the arena bound and the
positional/dispatcher exclusion. -/
theorem invariant_register (r : Repo.Repository) (arg : Repo.Argument)
    (hok : Repo.is_assignable_by_name arg = true ∨ r.m_subparsers_argument = none)
    (ihwf : ∀ i ∈ r.m_arguments, i < r.pool.length)
    (ihmix : Repo.has_positional_arguments r = true →
      r.m_subparsers_argument = none) :
    (∀ i ∈ (Repo.register_argument r arg).1.m_arguments,
        i < (Repo.register_argument r arg).1.pool.length) ∧
    (Repo.has_positional_arguments (Repo.register_argument r arg).1 = true →
      (Repo.register_argument r arg).1.m_subparsers_argument = none) := by
  obtain ⟨hpool, hargs, hsub⟩ := register_argument_fields r arg
  constructor
  · intro i hi
    rw [hargs] at hi
    rw [hpool]
    simp only [List.mem_append, List.mem_singleton] at hi
    simp only [List.length_append, List.length_singleton]
    rcases hi with hi | hi
    · exact Nat.lt_succ_of_lt (ihwf i hi)
    · subst hi
      exact Nat.lt_succ_self _
  · intro hp
    rw [hsub]
    rw [has_positional_register r arg ihwf] at hp
    rcases hok with hass | hnone
    · rw [hass] at hp
      simp at hp
      exact ihmix hp
    · exact hnone

/-- Helper: the arena bound and the positional/dispatcher exclusion hold in
every reachable repository. -/
theorem repo_invariant (r : Repo.Repository) (h : Repo.Reachable r) :
    (∀ i ∈ r.m_arguments, i < r.pool.length) ∧
    (Repo.has_positional_arguments r = true → r.m_subparsers_argument = none) := by
  induction h with
  | init vsep ssep sw =>
    constructor
    · intro i hi
      simp [Repo.mkRepository] at hi
    · intro hp
      simp [Repo.mkRepository, Repo.has_positional_arguments] at hp
  | exclusive_step names r0 hr ih =>
    rcases add_exclusive_out r0 names with he | he <;> rw [he]
    · exact ih
    · exact invariant_register r0 _ (Or.inl rfl) ih.1 ih.2
  | switch_step names r0 hr ih =>
    rcases repo_add_switch_out r0 names with he | he <;> rw [he]
    · exact ih
    · exact invariant_register r0 _ (Or.inl rfl) ih.1 ih.2
  | valued_step names r0 hr ih =>
    rcases repo_add_valued_out r0 names with he | he <;> rw [he]
    · exact ih
    · exact invariant_register r0 _ (Or.inl rfl) ih.1 ih.2
  | positional_step name r0 hr ih =>
    rcases repo_add_positional_out r0 name with he | ⟨hnone, he⟩ <;> rw [he]
    · exact ih
    · exact invariant_register r0 _ (Or.inr hnone) ih.1 ih.2
  | subparsers_step name r0 hr ih =>
    rcases add_subparsers_out r0 name with he | ⟨hnopos, hargs, hpool⟩
    · rw [he]
      exact ih
    · constructor
      · intro i hi
        rw [hargs] at hi
        rw [hpool]
        simp only [List.length_append, List.length_singleton]
        exact Nat.lt_succ_of_lt (ih.1 i hi)
      · intro hp
        exfalso
        have hsame : Repo.has_positional_arguments
            (Repo.reg_out (Repo.add_subparsers r0 name)) =
            Repo.has_positional_arguments r0 := by
          unfold Repo.has_positional_arguments
          rw [hargs]
          apply list_any_congr
          intro i hi
          have hg : Repo.get_arg (Repo.reg_out (Repo.add_subparsers r0 name)) i =
              Repo.get_arg r0 i := by
            unfold Repo.get_arg
            rw [hpool]
            exact List.getD_append r0.pool _ default i (ih.1 i hi)
          rw [hg]
        rw [hsame, hnopos] at hp
        exact Bool.false_ne_true hp
  | min_count_step idx count r0 hr ih =>
    have hP : Repo.set_min_count r0 idx count = { r0 with pool := r0.pool.set idx { r0.pool.getD idx default with min_count := count } } := rfl
    constructor
    · intro i hi
      rw [hP] at hi ⊢
      simp only [List.length_set] at *
      exact ih.1 i hi
    · intro hp
      rw [hP] at hp ⊢
      rw [has_positional_pool_set r0 idx { r0.pool.getD idx default with min_count := count } rfl] at hp
      exact ih.2 hp
  | max_count_step idx count r0 hr ih =>
    have hP : Repo.set_max_count r0 idx count = { r0 with pool := r0.pool.set idx { r0.pool.getD idx default with max_count := some count } } := rfl
    constructor
    · intro i hi
      rw [hP] at hi ⊢
      simp only [List.length_set] at *
      exact ih.1 i hi
    · intro hp
      rw [hP] at hp ⊢
      rw [has_positional_pool_set r0 idx { r0.pool.getD idx default with max_count := some count } rfl] at hp
      exact ih.2 hp
  | max_unlimited_step idx r0 hr ih =>
    have hP : Repo.set_max_count_unlimited r0 idx = { r0 with pool := r0.pool.set idx { r0.pool.getD idx default with max_count := none } } := rfl
    constructor
    · intro i hi
      rw [hP] at hi ⊢
      simp only [List.length_set] at *
      exact ih.1 i hi
    · intro hp
      rw [hP] at hp ⊢
      rw [has_positional_pool_set r0 idx { r0.pool.getD idx default with max_count := none } rfl] at hp
      exact ih.2 hp


/-- C3: a reachable repository never simultaneously holds a positional
argument and a sub-command dispatcher; with the name checks passing,
registering a positional while a dispatcher exists fails with
StructuralConflict, and registering a dispatcher while one already exists or
while a positional argument exists fails with StructuralConflict, leaving
the repository unchanged. -/
theorem claim_C3 (r : Repo.Repository) (h : Repo.Reachable r) :
    (Repo.has_positional_arguments r = true → r.m_subparsers_argument = none) ∧
    (∀ name idx, r.m_subparsers_argument = some idx →
      Repo.check_names r [name] = .ok () →
      Repo.add_positional r name = .error (.StructuralConflict, r)) ∧
    (∀ name,
      (r.m_subparsers_argument ≠ none ∨ Repo.has_positional_arguments r = true) →
      Repo.check_names r [name] = .ok () →
      Repo.add_subparsers r name = .error (.StructuralConflict, r)) := by
  refine ⟨(repo_invariant r h).2, ?_, ?_⟩
  · intro name idx hs hc
    unfold Repo.add_positional
    rw [hc, hs]
  · intro name hd hc
    unfold Repo.add_subparsers
    rw [hc]
    cases hs : r.m_subparsers_argument with
    | some i => rfl
    | none =>
      rcases hd with hd | hd
      · exact absurd hs hd
      · rw [if_pos hd]

/-- C3 witness: adding a positional argument to a repository that already
holds a dispatcher fails with StructuralConflict and keeps the state. -/
theorem claim_C3_witness :
    Repo.add_positional subparserRepo "x" =
      .error (.StructuralConflict, subparserRepo) :=
  (claim_C3 subparserRepo
    (Repo.Reachable.subparsers_step "cmd" (Repo.mkRepository "=" "/" "true")
      (Repo.Reachable.init "=" "/" "true"))).2.1 "x" 0 (by decide) (by decide)


/-- Helper: the fields of a successful old-parser registration. -/
theorem old_register_fields (p : OldParser.ParserData) (arg : OldParser.Argument) :
    (OldParser.register_argument p arg).1.arguments = p.arguments ++ [arg] ∧
    (OldParser.register_argument p arg).1.positional_arguments =
      p.positional_arguments := ⟨rfl, rfl⟩

/-- Helper: within the arena bound, dereferencing is stable under appending
a new old-parser argument. -/
theorem old_get_arg_append (p : OldParser.ParserData) (arg : OldParser.Argument)
    (i : Nat) (h : i < p.arguments.length) :
    OldParser.get_arg (OldParser.register_argument p arg).1 i =
      OldParser.get_arg p i := by
  unfold OldParser.get_arg
  rw [(old_register_fields p arg).1]
  exact List.getD_append _ _ _ _ h

/-- Helper: outcome analysis of the old parser's `add_switch`. -/
theorem old_add_switch_out (p : OldParser.ParserData) (ns : List String) :
    OldParser.reg_out (OldParser.add_switch p ns) = p ∨
    OldParser.reg_out (OldParser.add_switch p ns) =
      (OldParser.register_argument p ⟨OldParser.ArgKind.SWITCH, ns, false, some 1⟩).1 := by
  unfold OldParser.add_switch OldParser.reg_out
  cases OldParser.check_names p ns <;> simp

/-- Helper: outcome analysis of the old parser's `add_valued`. -/
theorem old_add_valued_out (p : OldParser.ParserData) (ns : List String) :
    OldParser.reg_out (OldParser.add_valued p ns) = p ∨
    OldParser.reg_out (OldParser.add_valued p ns) =
      (OldParser.register_argument p ⟨OldParser.ArgKind.VALUED, ns, false, some 1⟩).1 := by
  unfold OldParser.add_valued OldParser.reg_out
  cases OldParser.check_names p ns <;> simp

/-- Helper: outcome analysis of the old parser's `add_positional`; on
success, the previously last positional argument (if any) was required and
not multivalue. -/
theorem old_add_positional_out (p : OldParser.ParserData) (n : String)
    (req mv : Bool) :
    OldParser.reg_out (OldParser.add_positional p n req mv) = p ∨
    ((p.positional_arguments = [] ∨
       ∃ lastIdx, p.positional_arguments.getLast? = some lastIdx ∧
         (OldParser.get_arg p lastIdx).required = true ∧
         OldParser.max_count_gt_one (OldParser.get_arg p lastIdx) = false) ∧
      OldParser.reg_out (OldParser.add_positional p n req mv) =
        { (OldParser.register_argument p
            ⟨OldParser.ArgKind.POSITIONAL, [n], req, if mv then none else some 1⟩).1 with
          positional_arguments :=
            p.positional_arguments ++ [p.arguments.length] }) := by
  unfold OldParser.add_positional OldParser.reg_out
  cases OldParser.check_names p [n] with
  | error e => simp
  | ok u =>
    cases u
    cases hl : p.positional_arguments.getLast? with
    | none =>
      right
      refine ⟨Or.inl (by simpa using hl), ?_⟩
      simp [OldParser.register_argument, OldParser.add_to_names_repository]
    | some lastIdx =>
      by_cases hreq : (OldParser.get_arg p lastIdx).required = false
      · left
        simp [hreq]
      · by_cases hgt : OldParser.max_count_gt_one (OldParser.get_arg p lastIdx) = true
        · left
          simp [hreq, hgt]
        · right
          refine ⟨Or.inr ⟨lastIdx, rfl, by simpa using hreq, by simpa using hgt⟩, ?_⟩
          simp [hreq, hgt, OldParser.register_argument, OldParser.add_to_names_repository]

/-- Helper: a registration that does not touch the positional sequence
preserves the old parser's positional invariants. -/
theorem old_invariant_register (p : OldParser.ParserData)
    (arg : OldParser.Argument)
    (ih1 : ∀ i ∈ p.positional_arguments, i < p.arguments.length)
    (ih2 : ∀ i ∈ p.positional_arguments,
      (OldParser.get_arg p i).max_count = none ∨
      (OldParser.get_arg p i).max_count = some 1)
    (ih3 : ∀ i ∈ p.positional_arguments.dropLast,
      (OldParser.get_arg p i).required = true ∧
      (OldParser.get_arg p i).max_count = some 1) :
    (∀ i ∈ (OldParser.register_argument p arg).1.positional_arguments,
      i < (OldParser.register_argument p arg).1.arguments.length) ∧
    (∀ i ∈ (OldParser.register_argument p arg).1.positional_arguments,
      (OldParser.get_arg (OldParser.register_argument p arg).1 i).max_count = none ∨
      (OldParser.get_arg (OldParser.register_argument p arg).1 i).max_count = some 1) ∧
    (∀ i ∈ (OldParser.register_argument p arg).1.positional_arguments.dropLast,
      (OldParser.get_arg (OldParser.register_argument p arg).1 i).required = true ∧
      (OldParser.get_arg (OldParser.register_argument p arg).1 i).max_count = some 1) := by
  obtain ⟨hargs, hpos⟩ := old_register_fields p arg
  refine ⟨?_, ?_, ?_⟩
  · intro i hi
    rw [hpos] at hi
    rw [hargs]
    simp only [List.length_append, List.length_singleton]
    exact Nat.lt_succ_of_lt (ih1 i hi)
  · intro i hi
    rw [hpos] at hi
    rw [old_get_arg_append p arg i (ih1 i hi)]
    exact ih2 i hi
  · intro i hi
    rw [hpos] at hi
    have hmem : i ∈ p.positional_arguments := List.dropLast_subset _ hi
    rw [old_get_arg_append p arg i (ih1 i hmem)]
    exact ih3 i hi

/-- Helper: appending a positional argument after a passing guard preserves
the old parser's positional invariants. -/
theorem old_invariant_step_positional (p0 : OldParser.ParserData)
    (arg : OldParser.Argument) (q : OldParser.ParserData)
    (hqa : q.arguments = p0.arguments ++ [arg])
    (hqp : q.positional_arguments =
      p0.positional_arguments ++ [p0.arguments.length])
    (hmax : arg.max_count = none ∨ arg.max_count = some 1)
    (hguard : p0.positional_arguments = [] ∨
      ∃ lastIdx, p0.positional_arguments.getLast? = some lastIdx ∧
        (OldParser.get_arg p0 lastIdx).required = true ∧
        OldParser.max_count_gt_one (OldParser.get_arg p0 lastIdx) = false)
    (ih1 : ∀ i ∈ p0.positional_arguments, i < p0.arguments.length)
    (ih2 : ∀ i ∈ p0.positional_arguments,
      (OldParser.get_arg p0 i).max_count = none ∨
      (OldParser.get_arg p0 i).max_count = some 1)
    (ih3 : ∀ i ∈ p0.positional_arguments.dropLast,
      (OldParser.get_arg p0 i).required = true ∧
      (OldParser.get_arg p0 i).max_count = some 1) :
    (∀ i ∈ q.positional_arguments, i < q.arguments.length) ∧
    (∀ i ∈ q.positional_arguments,
      (OldParser.get_arg q i).max_count = none ∨
      (OldParser.get_arg q i).max_count = some 1) ∧
    (∀ i ∈ q.positional_arguments.dropLast,
      (OldParser.get_arg q i).required = true ∧
      (OldParser.get_arg q i).max_count = some 1) := by
  have hget : ∀ i, i < p0.arguments.length →
      OldParser.get_arg q i = OldParser.get_arg p0 i := by
    intro i hi
    unfold OldParser.get_arg
    rw [hqa]
    exact List.getD_append _ _ _ _ hi
  have hgetnew : OldParser.get_arg q p0.arguments.length = arg := by
    unfold OldParser.get_arg
    rw [hqa]
    exact getD_concat_length _ _ _
  refine ⟨?_, ?_, ?_⟩
  · intro i hi
    rw [hqp] at hi
    rw [hqa]
    simp only [List.length_append, List.length_singleton]
    simp only [List.mem_append, List.mem_singleton] at hi
    rcases hi with hi | hi
    · exact Nat.lt_succ_of_lt (ih1 i hi)
    · subst hi
      exact Nat.lt_succ_self _
  · intro i hi
    rw [hqp] at hi
    simp only [List.mem_append, List.mem_singleton] at hi
    rcases hi with hi | hi
    · rw [hget i (ih1 i hi)]
      exact ih2 i hi
    · subst hi
      rw [hgetnew]
      exact hmax
  · intro i hi
    rw [hqp] at hi
    have hdrop : (p0.positional_arguments ++ [p0.arguments.length]).dropLast =
        p0.positional_arguments := by simp
    rw [hdrop] at hi
    rcases hguard with hnil | ⟨lastIdx, hl, hreq, hgt⟩
    · rw [hnil] at hi
      simp at hi
    · have hsplit := List.dropLast_append_getLast? lastIdx ((Option.mem_def).mpr hl)
      have hlastmem : lastIdx ∈ p0.positional_arguments := by
        rw [← hsplit]
        simp
      rw [← hsplit] at hi
      simp only [List.mem_append, List.mem_singleton] at hi
      rcases hi with hi | hi
      · have hmem : i ∈ p0.positional_arguments := List.dropLast_subset _ hi
        rw [hget i (ih1 i hmem)]
        exact ih3 i hi
      · rw [hi]
        rw [hget lastIdx (ih1 lastIdx hlastmem)]
        refine ⟨hreq, ?_⟩
        rcases ih2 lastIdx hlastmem with hm | hm
        · exfalso
          unfold OldParser.max_count_gt_one at hgt
          rw [hm] at hgt
          simp at hgt
        · exact hm

/-- Helper: the positional invariants hold in every reachable old parser:
indices stay in the arena, every positional has maximum count unlimited or
1, and every positional before the last is required with maximum count 1. -/
theorem old_invariant (p : OldParser.ParserData) (h : OldParser.Reachable p) :
    (∀ i ∈ p.positional_arguments, i < p.arguments.length) ∧
    (∀ i ∈ p.positional_arguments,
      (OldParser.get_arg p i).max_count = none ∨
      (OldParser.get_arg p i).max_count = some 1) ∧
    (∀ i ∈ p.positional_arguments.dropLast,
      (OldParser.get_arg p i).required = true ∧
      (OldParser.get_arg p i).max_count = some 1) := by
  induction h with
  | init eq sw => simp [OldParser.mkParserData]
  | switch_step names p0 hp ih =>
    rcases old_add_switch_out p0 names with he | he <;> rw [he]
    · exact ih
    · exact old_invariant_register p0 _ ih.1 ih.2.1 ih.2.2
  | valued_step names p0 hp ih =>
    rcases old_add_valued_out p0 names with he | he <;> rw [he]
    · exact ih
    · exact old_invariant_register p0 _ ih.1 ih.2.1 ih.2.2
  | positional_step name req mv p0 hp ih =>
    rcases old_add_positional_out p0 name req mv with he | ⟨hguard, he⟩
    · rw [he]
      exact ih
    · rw [he]
      refine old_invariant_step_positional p0
        ⟨OldParser.ArgKind.POSITIONAL, [name], req, if mv then none else some 1⟩
        _ rfl rfl ?_ hguard ih.1 ih.2.1 ih.2.2
      cases mv with
      | false => exact Or.inr rfl
      | true => exact Or.inl rfl

/-- C10: in every old parser reachable through the public registration API,
every positional argument except possibly the last is required and
single-valued, because add_positional fails (leaving the parser unchanged)
whenever the most recently registered positional argument is optional or
has maximum count greater than 1. -/
theorem claim_C10 (p : OldParser.ParserData) (h : OldParser.Reachable p) :
    (∀ i ∈ p.positional_arguments.dropLast,
      (OldParser.get_arg p i).required = true ∧
      (OldParser.get_arg p i).max_count = some 1) ∧
    (∀ name required multivalue lastIdx,
      p.positional_arguments.getLast? = some lastIdx →
      ((OldParser.get_arg p lastIdx).required = false ∨
        OldParser.max_count_gt_one (OldParser.get_arg p lastIdx) = true) →
      ∃ e, OldParser.add_positional p name required multivalue =
        .error (e, p)) := by
  refine ⟨(old_invariant p h).2.2, ?_⟩
  intro name required multivalue lastIdx hl hbad
  cases hc : OldParser.check_names p [name] with
  | error e =>
    refine ⟨e, ?_⟩
    unfold OldParser.add_positional
    rw [hc]
  | ok u =>
    cases u
    rcases hbad with hbad | hbad
    · refine ⟨.OptionalPositionalConflict, ?_⟩
      unfold OldParser.add_positional
      rw [hc]
      simp [hl, hbad]
    · by_cases hreq : (OldParser.get_arg p lastIdx).required = false
      · refine ⟨.OptionalPositionalConflict, ?_⟩
        unfold OldParser.add_positional
        rw [hc]
        simp [hl, hreq]
      · refine ⟨.MultivaluePositionalConflict, ?_⟩
        unfold OldParser.add_positional
        rw [hc]
        simp [hl, hreq, hbad]

/-- C10 witness: after registering one multivalue positional argument,
adding a second positional argument fails and registers nothing. -/
theorem claim_C10_witness :
    ∃ e, OldParser.add_positional multivalueFirstParser "dst" true false =
      .error (e, multivalueFirstParser) :=
  (claim_C10 multivalueFirstParser
    (OldParser.Reachable.positional_step "src" true true
      (OldParser.mkParserData '=' "true")
      (OldParser.Reachable.init '=' "true"))).2 "dst" true false 0 (by decide)
    (Or.inr (by decide))


/-- Helper: recording a value never changes which exclusive members were
triggered. -/
theorem record_value_triggered (r : Repo.Repository) (st : Engine.EngineState)
    (idx : Nat) (v : String) (st2 : Engine.EngineState)
    (h : Engine.record_value r st idx v = .ok st2) :
    st2.triggered = st.triggered := by
  cases hm : (Repo.get_arg r idx).max_count with
  | none =>
    have hx : Engine.record_value r st idx v =
        .ok { st with results := st.results ++ [(idx, v)] } := by
      simp [Engine.record_value, hm]
    rw [hx] at h
    rw [← Except.ok.inj h]
  | some m =>
    by_cases hge : Engine.value_count st idx ≥ m
    · have hx : Engine.record_value r st idx v = .error .TooManyOccurrences := by
        simp [Engine.record_value, hm, hge]
      rw [hx] at h
      simp at h
    · have hx : Engine.record_value r st idx v =
          .ok { st with results := st.results ++ [(idx, v)] } := by
        simp [Engine.record_value, hm, hge]
      rw [hx] at h
      rw [← Except.ok.inj h]

/-- Helper: one named-phase step either keeps the triggered-member log or
appends one member that passed the exclusive-conflict guard. -/
theorem named_step_triggered_shape (r : Repo.Repository)
    (st : Engine.EngineState) (input : List String)
    (st2 : Engine.EngineState) (rest2 : List String)
    (h : Engine.named_step r st input = .ok (some (st2, rest2))) :
    st2.triggered = st.triggered ∨
    ∃ idx tok, st2.triggered = st.triggered ++ [(idx, tok)] ∧
      st.triggered.any (fun e => e.1 == idx && e.2 != tok) = false := by
  cases input with
  | nil => simp [Engine.named_step] at h
  | cons tok rest =>
    cases hs : Engine.split_value r tok with
    | none =>
      cases hf : Repo.find_name r tok with
      | none =>
        have hx : Engine.named_step r st (tok :: rest) = .ok none := by
          simp [Engine.named_step, hs, hf]
        rw [hx] at h
        simp at h
      | some idx =>
        cases hk : (Repo.get_arg r idx).kind with
        | VALUED =>
          cases rest with
          | nil =>
            have hx : Engine.named_step r st [tok] = .error .MissingValue := by
              simp [Engine.named_step, hs, hf, hk]
            rw [hx] at h
            simp at h
          | cons v rest3 =>
            cases hr : Engine.record_value r st idx v with
            | error e =>
              have hx : Engine.named_step r st (tok :: v :: rest3) = .error e := by
                simp [Engine.named_step, hs, hf, hk, hr]
              rw [hx] at h
              simp at h
            | ok st3 =>
              have hx : Engine.named_step r st (tok :: v :: rest3) =
                  .ok (some (st3, rest3)) := by
                simp [Engine.named_step, hs, hf, hk, hr]
              rw [hx] at h
              have h1 : st3 = st2 :=
                congrArg Prod.fst (Option.some.inj (Except.ok.inj h))
              left
              rw [← h1]
              exact record_value_triggered r st idx v st3 hr
        | SWITCH =>
          cases hr : Engine.record_value r st idx r.switch_enabled_literal with
          | error e =>
            have hx : Engine.named_step r st (tok :: rest) = .error e := by
              simp [Engine.named_step, hs, hf, hk, hr]
            rw [hx] at h
            simp at h
          | ok st3 =>
            have hx : Engine.named_step r st (tok :: rest) =
                .ok (some (st3, rest)) := by
              simp [Engine.named_step, hs, hf, hk, hr]
            rw [hx] at h
            have h1 : st3 = st2 :=
              congrArg Prod.fst (Option.some.inj (Except.ok.inj h))
            left
            rw [← h1]
            exact record_value_triggered r st idx _ st3 hr
        | EXCLUSIVE =>
          by_cases hg : st.triggered.any (fun e => e.1 == idx && e.2 != tok) = true
          · have hx : Engine.named_step r st (tok :: rest) =
                .error .ExclusiveConflict := by
              simp [Engine.named_step, hs, hf, hk, hg]
            rw [hx] at h
            simp at h
          · cases hr : Engine.record_value r st idx r.switch_enabled_literal with
            | error e =>
              have hx : Engine.named_step r st (tok :: rest) = .error e := by
                simp [Engine.named_step, hs, hf, hk, hg, hr]
              rw [hx] at h
              simp at h
            | ok st3 =>
              have hx : Engine.named_step r st (tok :: rest) =
                  .ok (some ({ st3 with
                    triggered := st3.triggered ++ [(idx, tok)] }, rest)) := by
                simp [Engine.named_step, hs, hf, hk, hg, hr]
              rw [hx] at h
              have h1 : { st3 with triggered := st3.triggered ++ [(idx, tok)] } = st2 :=
                congrArg Prod.fst (Option.some.inj (Except.ok.inj h))
              right
              refine ⟨idx, tok, ?_, by simpa using hg⟩
              rw [← h1]
              simp [record_value_triggered r st idx _ st3 hr]
        | POSITIONAL =>
          have hx : Engine.named_step r st (tok :: rest) = .ok none := by
            simp [Engine.named_step, hs, hf, hk]
          rw [hx] at h
          simp at h
        | SUBPARSER =>
          have hx : Engine.named_step r st (tok :: rest) = .ok none := by
            simp [Engine.named_step, hs, hf, hk]
          rw [hx] at h
          simp at h
    | some pr =>
      obtain ⟨name_str, value_str⟩ := pr
      cases hf : Repo.find_name r name_str with
      | none =>
        have hx : Engine.named_step r st (tok :: rest) = .ok none := by
          simp [Engine.named_step, hs, hf]
        rw [hx] at h
        simp at h
      | some idx =>
        cases hk : (Repo.get_arg r idx).kind with
        | VALUED =>
          cases hr : Engine.record_value r st idx value_str with
          | error e =>
            have hx : Engine.named_step r st (tok :: rest) = .error e := by
              simp [Engine.named_step, hs, hf, hk, hr]
            rw [hx] at h
            simp at h
          | ok st3 =>
            have hx : Engine.named_step r st (tok :: rest) =
                .ok (some (st3, rest)) := by
              simp [Engine.named_step, hs, hf, hk, hr]
            rw [hx] at h
            have h1 : st3 = st2 :=
              congrArg Prod.fst (Option.some.inj (Except.ok.inj h))
            left
            rw [← h1]
            exact record_value_triggered r st idx _ st3 hr
        | SWITCH =>
          have hx : Engine.named_step r st (tok :: rest) =
              .error .UnexpectedValue := by
            simp [Engine.named_step, hs, hf, hk]
          rw [hx] at h
          simp at h
        | EXCLUSIVE =>
          have hx : Engine.named_step r st (tok :: rest) =
              .error .UnexpectedValue := by
            simp [Engine.named_step, hs, hf, hk]
          rw [hx] at h
          simp at h
        | POSITIONAL =>
          have hx : Engine.named_step r st (tok :: rest) = .ok none := by
            simp [Engine.named_step, hs, hf, hk]
          rw [hx] at h
          simp at h
        | SUBPARSER =>
          have hx : Engine.named_step r st (tok :: rest) = .ok none := by
            simp [Engine.named_step, hs, hf, hk]
          rw [hx] at h
          simp at h

/-- Helper: appending a member that passed the exclusive guard keeps the
per-group uniqueness of triggered members. -/
theorem triggered_append_unique (tr : List (Nat × String)) (idx0 : Nat)
    (tok : String)
    (hguard : tr.any (fun e => e.1 == idx0 && e.2 != tok) = false)
    (hok : ∀ idx n1 n2, (idx, n1) ∈ tr → (idx, n2) ∈ tr → n1 = n2) :
    ∀ idx n1 n2, (idx, n1) ∈ tr ++ [(idx0, tok)] →
      (idx, n2) ∈ tr ++ [(idx0, tok)] → n1 = n2 := by
  have hg : ∀ e ∈ tr, e.1 = idx0 → e.2 = tok := by
    intro e he h1
    have hx := List.any_eq_false.mp hguard e he
    simp [h1] at hx
    exact hx
  intro idx n1 n2 h1 h2
  simp only [List.mem_append, List.mem_singleton] at h1 h2
  rcases h1 with h1 | h1 <;> rcases h2 with h2 | h2
  · exact hok idx n1 n2 h1 h2
  · rw [Prod.mk.injEq] at h2
    rw [h2.2]
    exact hg (idx, n1) h1 h2.1
  · rw [Prod.mk.injEq] at h1
    rw [h1.2]
    exact (hg (idx, n2) h2 h1.1).symm
  · rw [Prod.mk.injEq] at h1 h2
    rw [h1.2, h2.2]

/-- Helper: the named-phase loop preserves per-group uniqueness of
triggered members. -/
theorem named_loop_triggered (r : Repo.Repository) :
    ∀ (fuel : Nat) (st : Engine.EngineState) (input : List String)
      (st2 : Engine.EngineState) (rest2 : List String),
      Engine.named_loop r fuel st input = .ok (st2, rest2) →
      (∀ idx n1 n2, (idx, n1) ∈ st.triggered → (idx, n2) ∈ st.triggered →
        n1 = n2) →
      ∀ idx n1 n2, (idx, n1) ∈ st2.triggered → (idx, n2) ∈ st2.triggered →
        n1 = n2 := by
  intro fuel
  induction fuel with
  | zero =>
    intro st input st2 rest2 h hok
    have h1 : st = st2 := congrArg Prod.fst (Except.ok.inj h)
    rw [← h1]
    exact hok
  | succ n ih =>
    intro st input st2 rest2 h hok
    cases input with
    | nil =>
      have h1 : st = st2 := congrArg Prod.fst (Except.ok.inj h)
      rw [← h1]
      exact hok
    | cons tok rest =>
      cases hs : Engine.named_step r st (tok :: rest) with
      | error e =>
        have hx : Engine.named_loop r (n + 1) st (tok :: rest) = .error e := by
          simp [Engine.named_loop, hs]
        rw [hx] at h
        simp at h
      | ok o =>
        cases o with
        | none =>
          have hx : Engine.named_loop r (n + 1) st (tok :: rest) =
              .ok (st, tok :: rest) := by
            simp [Engine.named_loop, hs]
          rw [hx] at h
          have h1 : st = st2 := congrArg Prod.fst (Except.ok.inj h)
          rw [← h1]
          exact hok
        | some pr =>
          obtain ⟨st3, rest3⟩ := pr
          have hx : Engine.named_loop r (n + 1) st (tok :: rest) =
              Engine.named_loop r n st3 rest3 := by
            simp [Engine.named_loop, hs]
          rw [hx] at h
          have hok3 : ∀ idx n1 n2, (idx, n1) ∈ st3.triggered →
              (idx, n2) ∈ st3.triggered → n1 = n2 := by
            rcases named_step_triggered_shape r st (tok :: rest) st3 rest3 hs with
              heq | ⟨idx0, t0, heq, hguard⟩
            · rw [heq]
              exact hok
            · rw [heq]
              exact triggered_append_unique st.triggered idx0 t0 hguard hok
          exact ih st3 rest3 st2 rest2 h hok3

/-- Helper: the positional loop never changes the triggered-member log. -/
theorem positional_loop_triggered (r : Repo.Repository) :
    ∀ (input : List String) (st : Engine.EngineState) (slots : List Nat)
      (st2 : Engine.EngineState) (slots2 : List Nat),
      Engine.positional_loop r st slots input = .ok (st2, slots2) →
      st2.triggered = st.triggered := by
  intro input
  induction input with
  | nil =>
    intro st slots st2 slots2 h
    have hx : Engine.positional_loop r st slots [] = .ok (st, slots) := by
      simp [Engine.positional_loop]
    rw [hx] at h
    have h1 : st = st2 := congrArg Prod.fst (Except.ok.inj h)
    rw [← h1]
  | cons tok rest ih =>
    intro st slots st2 slots2 h
    cases slots with
    | nil =>
      have hx : Engine.positional_loop r st [] (tok :: rest) =
          .error .UnexpectedArgument := rfl
      rw [hx] at h
      simp at h
    | cons idx sr =>
      cases hr : Engine.record_value r st idx tok with
      | error e =>
        have hx : Engine.positional_loop r st (idx :: sr) (tok :: rest) =
            .error e := by
          simp [Engine.positional_loop, hr]
        rw [hx] at h
        simp at h
      | ok st3 =>
        have h3 := record_value_triggered r st idx tok st3 hr
        by_cases hc : (Repo.get_arg r idx).max_count = some 1
        · have hx : Engine.positional_loop r st (idx :: sr) (tok :: rest) =
              Engine.positional_loop r st3 sr rest := by
            simp [Engine.positional_loop, hr, hc]
          rw [hx] at h
          rw [ih st3 sr st2 slots2 h, h3]
        · have hx : Engine.positional_loop r st (idx :: sr) (tok :: rest) =
              Engine.positional_loop r st3 (idx :: sr) rest := by
            simp [Engine.positional_loop, hr, hc]
          rw [hx] at h
          rw [ih st3 (idx :: sr) st2 slots2 h, h3]


/-- C1: under the spec-modelled engine, a parse that returns ok never has
two distinct members of the same exclusive group triggered; the named phase
fails with ExclusiveConflict the moment a member of a group is seen while a
different member of the same group is already triggered; concretely, with
switches "--a" and "--b" in one exclusive group, parsing ["--a", "--b"]
fails with ExclusiveConflict and parsing ["--a"] succeeds. -/
theorem claim_C1 :
    (∀ (r : Repo.Repository) (input : List String) (st : Engine.EngineState),
      r.m_subparsers_argument = none →
      Engine.parse r input = .ok st →
      ∀ idx n1 n2, (idx, n1) ∈ st.triggered → (idx, n2) ∈ st.triggered →
        n1 = n2) ∧
    (∀ (r : Repo.Repository) (st : Engine.EngineState) (tok : String)
        (rest : List String) (idx : Nat) (n2 : String),
      Engine.split_value r tok = none →
      Repo.find_name r tok = some idx →
      (Repo.get_arg r idx).kind = Repo.ArgKind.EXCLUSIVE →
      (idx, n2) ∈ st.triggered → n2 ≠ tok →
      Engine.named_step r st (tok :: rest) = .error .ExclusiveConflict) ∧
    Engine.parse exclusiveRepo ["--a", "--b"] = .error .ExclusiveConflict ∧
    Engine.parse exclusiveRepo ["--a"] = .ok ⟨[(0, "true")], [(0, "--a")]⟩ := by
  refine ⟨?_, ?_, by decide, by decide⟩
  · intro r input st hsub h
    cases hn : Engine.named_loop r input.length ⟨[], []⟩ input with
    | error e =>
      have hx : Engine.parse r input = .error e := by simp [Engine.parse, hn]
      rw [hx] at h
      simp at h
    | ok pr1 =>
      obtain ⟨st1, rest1⟩ := pr1
      cases hp : Engine.positional_loop r st1 (Engine.positional_slots r) rest1 with
      | error e =>
        have hx : Engine.parse r input = .error e := by
          simp [Engine.parse, hn, hp]
        rw [hx] at h
        simp at h
      | ok pr2 =>
        obtain ⟨st3, slots3⟩ := pr2
        cases hc : Engine.check_required r st3 slots3 with
        | error e =>
          have hx : Engine.parse r input = .error e := by
            simp [Engine.parse, hn, hp, hc]
          rw [hx] at h
          simp at h
        | ok u =>
          cases u
          have hx : Engine.parse r input = .ok st3 := by
            simp [Engine.parse, hn, hp, hc]
          rw [hx] at h
          have h1 : st3 = st := Except.ok.inj h
          have hu1 : ∀ idx n1 n2, (idx, n1) ∈ st1.triggered →
              (idx, n2) ∈ st1.triggered → n1 = n2 :=
            named_loop_triggered r input.length ⟨[], []⟩ input st1 rest1 hn
              (by intro idx n1 n2 ha hb; simp at ha)
          have ht : st3.triggered = st1.triggered :=
            positional_loop_triggered r rest1 st1 (Engine.positional_slots r)
              st3 slots3 hp
          rw [← h1]
          intro idx n1 n2 ha hb
          rw [ht] at ha hb
          exact hu1 idx n1 n2 ha hb
  · intro r st tok rest idx n2 hs hf hk hmem hne
    have hg : st.triggered.any (fun e => e.1 == idx && e.2 != tok) = true :=
      List.any_eq_true.mpr ⟨(idx, n2), hmem, by simp [hne]⟩
    simp [Engine.named_step, hs, hf, hk, hg]

/-- C1 witness: with member "--a" of group 0 already triggered, the named
step on member "--b" fails with ExclusiveConflict. -/
theorem claim_C1_witness :
    Engine.named_step exclusiveRepo ⟨[(0, "true")], [(0, "--a")]⟩ ["--b"] =
      .error .ExclusiveConflict :=
  claim_C1.2.1 exclusiveRepo ⟨[(0, "true")], [(0, "--a")]⟩ "--b" [] 0 "--a"
    (by decide) (by decide) (by decide) (by decide) (by decide)

end Octargs
